import Mathlib

/-!
# Verification of the mnamer-ts core (filename parser/generator and move executor)

Shallow embedding of the TypeScript sources:
  * `src/parser.ts`  — `cleanTitle`, `titleCase`, `parseFilename`
  * `src/renamer.ts` — `pad2`, `generateFilename`, `RenameOptions`, `renameFile`

Strings are modelled as Lean `String`/`List Char`.  The three regular
expressions of the parser (`tvRegex1`, `tvRegex2`, `movieRegex`) are embedded
as explicit backtracking matchers that mirror the semantics of JavaScript
`String.match` without the `g` flag: the leftmost match wins, the `(.+?)`
title capture is lazy (shortest first), the character classes are exactly
those of the patterns, and `.` does not match line terminators.

Node's `path` (posix) functions used by the code — `dirname`, `join`,
`resolve`, `extname`, `basename` — are embedded from their documented
semantics (they are Node library calls, not repository code).

The filesystem is an explicit state (files as an association list from
resolved paths to contents, plus a set of directories); each `fs` call of
`renameFile` becomes a state transition that can fail with a `JsError`
carrying an optional `code` and a `message`, exactly the two fields the
`catch` blocks of `renameFile` inspect.
-/

namespace Mnamer

/-! ## Character classes of the parser's regexes -/

/-- The separator class `[. _\-]` of the three regexes. -/
def isSepCh (c : Char) : Bool := c = '.' || c = ' ' || c = '_' || c = '-'

/-- The class `[sS]` of `tvRegex1`. -/
def isSCh (c : Char) : Bool := c = 's' || c = 'S'

/-- The class `[eE]` of `tvRegex1`. -/
def isECh (c : Char) : Bool := c = 'e' || c = 'E'

/-- The class `[xX]` of `tvRegex2`. -/
def isXCh (c : Char) : Bool := c = 'x' || c = 'X'

/-- JavaScript `\d`, i.e. exactly the ASCII digits `0`-`9`. -/
def isDigitCh (c : Char) : Bool := 48 ≤ c.toNat && c.toNat ≤ 57

/-- JavaScript `.` (no `s` flag): any character except a line terminator. -/
def dotOk (c : Char) : Bool := !(c = '\n' || c = '\r' || c = '\u2028' || c = '\u2029')

/-- JavaScript `\s` / `trim` whitespace (ASCII part plus NBSP and BOM). -/
def isJsSpace (c : Char) : Bool :=
  c = ' ' || c = '\t' || c = '\n' || c = '\r' || c = '\x0b' || c = '\x0c' ||
  c = '\u00a0' || c = '\ufeff'

/-! ## Title normalisation (`cleanTitle`, `titleCase` of src/parser.ts) -/

/-- Replace every maximal nonempty run of characters satisfying `p` by a single
space: the effect of `.replace(/X+/g, " ")` for a character class `X`.
The boolean argument records whether the previous character was in a run. -/
def collapseRuns (p : Char → Bool) : Bool → List Char → List Char
  | _, [] => []
  | inRun, c :: rest =>
    if p c then (if inRun then [] else [' ']) ++ collapseRuns p true rest
    else c :: collapseRuns p false rest

/-- JavaScript `String.prototype.trim`. -/
def trimJs (cs : List Char) : List Char :=
  ((cs.dropWhile isJsSpace).reverse.dropWhile isJsSpace).reverse

/-- `cleanTitle` of src/parser.ts on character lists:
`.replace(/[._]+/g, " ").replace(/[-]+/g, " ").replace(/\s+/g, " ").trim()`. -/
def cleanTitleL (cs : List Char) : List Char :=
  trimJs (collapseRuns isJsSpace false
    (collapseRuns (fun c => c = '-') false
      (collapseRuns (fun c => c = '.' || c = '_') false cs)))

/-- `cleanTitle` of src/parser.ts. -/
def cleanTitle (s : String) : String := ⟨cleanTitleL s.data⟩

/-- JavaScript `String.prototype.split` with a single-character separator:
`"".split(sep)` is `[""]`, adjacent separators produce empty fields. -/
def splitOnCh (sep : Char) : List Char → List (List Char)
  | [] => [[]]
  | c :: rest =>
    if c = sep then [] :: splitOnCh sep rest
    else
      match splitOnCh sep rest with
      | w :: ws => (c :: w) :: ws
      | [] => [[c]]

/-- ASCII model of JavaScript `String.prototype.toUpperCase` on one character. -/
def jsToUpper (c : Char) : Char :=
  if 97 ≤ c.toNat && c.toNat ≤ 122 then Char.ofNat (c.toNat - 32) else c

/-- `w[0].toUpperCase() + w.slice(1)` for a nonempty word, `w` otherwise. -/
def capWord : List Char → List Char
  | [] => []
  | c :: rest => jsToUpper c :: rest

/-- `Array.prototype.join` with a single-character separator. -/
def joinWith (sep : Char) : List (List Char) → List Char
  | [] => []
  | [w] => w
  | w :: ws => w ++ sep :: joinWith sep ws

/-- `titleCase` of src/parser.ts on character lists:
`s.split(" ").map(capitalize-first).join(" ")`. -/
def titleCaseL (cs : List Char) : List Char :=
  joinWith ' ' ((splitOnCh ' ' cs).map capWord)

/-- `titleCase` of src/parser.ts. -/
def titleCase (s : String) : String := ⟨titleCaseL s.data⟩

/-- `parseInt(digits, 10)` on a string of ASCII digits. -/
def jsParseIntL (cs : List Char) : Nat :=
  cs.foldl (fun acc c => acc * 10 + (c.toNat - 48)) 0

/-- `parseInt(digits, 10)`. -/
def jsParseInt (s : String) : Nat := jsParseIntL s.data

/-! ## The three regexes as explicit matchers

`tvRegex1 = /(.+?)[. _\-]*[sS](\d{1,2})[eE](\d{2})/`
`tvRegex2 = /(.+?)[. _\-]*(\d{1,2})[xX](\d{2})/`
`movieRegex = /(.+?)[. _\-]*\(?((19|20)\d{2})\)?/`

The greedy `[. _\-]*` is deterministic here because none of the characters
that can follow it (`[sS]`, `\d`, `\(`) is in the separator class, so the
maximal skip is the only viable one.  `\d{1,2}` backtracks from two digits to
one; `\d{2}` is exact.  `tvRegex1` and `tvRegex2` share the shape
`(\d{1,2})M(\d{2})` for a marker class `M` (`[eE]` resp. `[xX]`), embedded
once as `matchSeasonMark`. -/

/-- The greedy separator skip `[. _\-]*`. -/
def dropSeps (cs : List Char) : List Char := cs.dropWhile isSepCh

/-- `M(\d{2})` for a marker class `M`: returns the two episode digits. -/
def matchMarkEp (mark : Char → Bool) : List Char → Option (List Char)
  | e :: d1 :: d2 :: _ =>
    if mark e && isDigitCh d1 && isDigitCh d2 then some [d1, d2] else none
  | _ => none

/-- `(\d{1,2})M(\d{2})`: greedy two-digit season first, then the one-digit
backtracking alternative.  Returns (season digits, episode digits). -/
def matchSeasonMark (mark : Char → Bool) : List Char → Option (List Char × List Char)
  | [] => none
  | d1 :: rest =>
    if isDigitCh d1 then
      match rest with
      | [] => none
      | d2 :: rest2 =>
        if isDigitCh d2 then
          match matchMarkEp mark rest2 with
          | some ep => some ([d1, d2], ep)
          | none =>
            match matchMarkEp mark rest with
            | some ep => some ([d1], ep)
            | none => none
        else
          match matchMarkEp mark rest with
          | some ep => some ([d1], ep)
          | none => none
    else none

/-- The part of `tvRegex1` after the lazy title capture:
`[. _\-]*[sS](\d{1,2})[eE](\d{2})`. -/
def tvTail1 (xs : List Char) : Option (List Char × List Char) :=
  match dropSeps xs with
  | c :: rest => if isSCh c then matchSeasonMark isECh rest else none
  | [] => none

/-- The part of `tvRegex2` after the lazy title capture:
`[. _\-]*(\d{1,2})[xX](\d{2})`. -/
def tvTail2 (xs : List Char) : Option (List Char × List Char) :=
  matchSeasonMark isXCh (dropSeps xs)

/-- `((19|20)\d{2})`: returns the four year digits. -/
def matchYear : List Char → Option (List Char)
  | c1 :: c2 :: d1 :: d2 :: _ =>
    if ((c1 = '1' && c2 = '9') || (c1 = '2' && c2 = '0')) && isDigitCh d1 && isDigitCh d2
    then some [c1, c2, d1, d2] else none
  | _ => none

/-- The part of `movieRegex` after the lazy title capture:
`[. _\-]*\(?((19|20)\d{2})\)?`.  If a `(` is consumed but no year follows,
the backtracking alternative (not consuming the `(`) also fails, because `(`
is not a digit — so consuming it unconditionally is faithful. -/
def movieTail (xs : List Char) : Option (List Char) :=
  match dropSeps xs with
  | '(' :: rest => matchYear rest
  | ys => matchYear ys

/-- Leftmost match of `(.+?)<tail>`: JavaScript tries the earliest start
first and, at each start, the shortest nonempty title first.  A match that
starts later can always be absorbed into the lazy title of an earlier start
(the title class `.` matches everything but line terminators), so scanning
with an accumulator and restarting after a line terminator is exact.
Returns (title capture, tail captures). -/
def scanWith {α : Type} (tail : List Char → Option α) :
    List Char → List Char → Option (List Char × α)
  | _, [] => none
  | acc, c :: rest =>
    if dotOk c then
      match tail rest with
      | some r => some ((c :: acc).reverse, r)
      | none => scanWith tail (c :: acc) rest
    else scanWith tail [] rest

/-! ## Node `path` (posix) functions used by the sources -/

/-- Node `path.posix.basename(p)` (no extension argument): strip trailing
slashes, then take the part after the last remaining slash. -/
def jsBasenameL (cs : List Char) : List Char :=
  ((cs.reverse.dropWhile (fun c => c = '/')).takeWhile (fun c => !(c = '/'))).reverse

/-- Node `path.posix.extname`: the suffix of the basename from its last dot,
empty when there is no dot, when the last dot is the basename's first
character, or when the basename is exactly `..`. -/
def jsExtnameL (cs : List Char) : List Char :=
  let b := jsBasenameL cs
  let after := b.reverse.takeWhile (fun c => !(c = '.'))
  if after.length = b.length then []
  else if b.length - after.length - 1 = 0 then []
  else if b = ['.', '.'] then []
  else b.drop (b.length - after.length - 1)

/-- Node `path.extname` on strings. -/
def jsExtname (s : String) : String := ⟨jsExtnameL s.data⟩

/-- Node `path.posix.basename(p, ext)`: the basename, with `ext` removed when
it is a proper suffix of it. -/
def jsBasenameExtL (cs ext : List Char) : List Char :=
  let b := jsBasenameL cs
  if ext ≠ [] ∧ b ≠ ext ∧ ext.isSuffixOf b then b.take (b.length - ext.length) else b

/-- One step of Node's `normalizeString`: process a path segment against the
stack of kept segments (stored in reverse). -/
def normStep (allowUp : Bool) (acc : List (List Char)) (tok : List Char) :
    List (List Char) :=
  if tok = [] ∨ tok = ['.'] then acc
  else if tok = ['.', '.'] then
    match acc with
    | [] => if allowUp then [['.', '.']] else []
    | u :: acc' => if u = ['.', '.'] then (if allowUp then tok :: acc else acc) else acc'
  else tok :: acc

/-- Node's `normalizeString`: fold `normStep` over the segments. -/
def normSegs (allowUp : Bool) : List (List Char) → List (List Char) → List (List Char)
  | acc, [] => acc.reverse
  | acc, t :: ts => normSegs allowUp (normStep allowUp acc t) ts

/-- Node `path.posix.normalize`. -/
def jsNormalizeL (cs : List Char) : List Char :=
  if cs = [] then ['.']
  else
    let isAbs := cs.head? = some '/'
    let trailing := cs.getLast? = some '/'
    let body := joinWith '/' (normSegs (!isAbs) [] (splitOnCh '/' cs))
    if body = [] then
      (if isAbs then ['/'] else if trailing then ['.', '/'] else ['.'])
    else
      (if isAbs then '/' :: body else body) ++ (if trailing then ['/'] else [])

/-- Node `path.posix.join(a, b)`: skip empty parts, join with `/`, normalize. -/
def jsJoin (a b : String) : String :=
  let j : List Char :=
    if a.data = [] then b.data else if b.data = [] then a.data else a.data ++ '/' :: b.data
  if j = [] then "." else ⟨jsNormalizeL j⟩

/-- Node `path.posix.resolve(p)` against a current working directory: prepend
`cwd` unless `p` is absolute, then normalize with no `..` escaping the root.
`process.cwd()` is always absolute, which the model assumes of `cwd`. -/
def jsResolve (cwd p : String) : String :=
  let full : List Char :=
    if p.data.head? = some '/' then p.data else cwd.data ++ '/' :: p.data
  ⟨'/' :: joinWith '/' (normSegs false [] (splitOnCh '/' full))⟩

/-- Node `path.posix.dirname`: everything before the last slash that precedes
the final component, with Node's special cases for roots. -/
def jsDirname (p : String) : String :=
  match p.data with
  | [] => "."
  | c0 :: rest =>
    let r2 := (rest.reverse.dropWhile (fun c => c = '/')).dropWhile (fun c => !(c = '/'))
    if r2 = [] then (if c0 = '/' then "/" else ".")
    else if c0 = '/' ∧ r2.length = 1 then "//"
    else ⟨(c0 :: rest).take r2.length⟩

/-! ## Data model (`ParsedMedia` of src/types.ts as used by the sources) -/

inductive MediaType
  | tv
  | movie
deriving DecidableEq

structure ParsedMedia where
  type : MediaType
  title : String
  season : Option Nat
  episode : Option Nat
  year : Option Nat
  ext : String
  originalName : String
deriving DecidableEq

/-! ## `parseFilename` of src/parser.ts -/

/-- `parseFilename`: extension and name extraction, then the TV patterns in
order, then the movie-year pattern, then the fallback. -/
def parseFilename (fullname : String) : Option ParsedMedia :=
  let ext := jsExtname fullname
  let name : String := ⟨jsBasenameExtL fullname.data ext.data⟩
  match scanWith tvTail1 [] name.data with
  | some (rawTitle, se) =>
    some { type := .tv, title := titleCase (cleanTitle ⟨rawTitle⟩),
           season := some (jsParseIntL se.1), episode := some (jsParseIntL se.2),
           year := none, ext := ext, originalName := name }
  | none =>
    match scanWith tvTail2 [] name.data with
    | some (rawTitle, se) =>
      some { type := .tv, title := titleCase (cleanTitle ⟨rawTitle⟩),
             season := some (jsParseIntL se.1), episode := some (jsParseIntL se.2),
             year := none, ext := ext, originalName := name }
    | none =>
      match scanWith movieTail [] name.data with
      | some (rawTitle, yr) =>
        some { type := .movie, title := titleCase (cleanTitle ⟨rawTitle⟩),
               season := none, episode := none, year := some (jsParseIntL yr),
               ext := ext, originalName := name }
      | none =>
        let cleaned := titleCase (cleanTitle name)
        if 0 < cleaned.length then
          some { type := .movie, title := cleaned, season := none, episode := none,
                 year := none, ext := ext, originalName := name }
        else none

/-! ## `generateFilename` of src/renamer.ts -/

/-- `pad2`: pad to two digits, `"00"` when absent. -/
def pad2 : Option Nat → String
  | none => "00"
  | some n => if n < 10 then "0" ++ toString n else toString n

/-- `generateFilename`: TV `"{title} - S{ss}E{ee}{ext}"`, movie
`"{title} ({year}){ext}"` or `"{title}{ext}"`.  (`parsed.ext || ""` is the
identity here because `ext` is modelled as a string, with `""` for absent.) -/
def generateFilename (parsed : ParsedMedia) : String :=
  match parsed.type with
  | .tv => parsed.title ++ " - S" ++ pad2 parsed.season ++ "E" ++ pad2 parsed.episode ++ parsed.ext
  | .movie =>
    match parsed.year with
    | some y => parsed.title ++ " (" ++ toString y ++ ")" ++ parsed.ext
    | none => parsed.title ++ parsed.ext

/-! ## Filesystem model and `renameFile` of src/renamer.ts -/

/-- A Node `fs` error as observed by the `catch` blocks of `renameFile`:
an optional `code` (e.g. `"ENOENT"`, `"EXDEV"`) and a `message`. -/
structure JsError where
  code : Option String
  message : String
deriving DecidableEq

def enoentErr (syscall p : String) : JsError :=
  ⟨some "ENOENT", "ENOENT: no such file or directory, " ++ syscall ++ " " ++ p⟩

def eisdirErr (syscall p : String) : JsError :=
  ⟨some "EISDIR", "EISDIR: illegal operation on a directory, " ++ syscall ++ " " ++ p⟩

def exdevErr (src dst : String) : JsError :=
  ⟨some "EXDEV", "EXDEV: cross-device link not permitted, rename " ++ src ++ " -> " ++ dst⟩

/-- The error thrown at line 80 of src/renamer.ts. -/
def destExistsErr (p : String) : JsError :=
  ⟨none, "Destination exists and --replace not set: " ++ p⟩

/-- `err.message.startsWith(pre)`. -/
def msgStartsWith (e : JsError) (pre : String) : Bool :=
  pre.data.isPrefixOf e.message.data

/-- The filesystem: contents of regular files keyed by resolved path, and the
set of existing directories (also resolved). -/
structure FileSystem where
  files : List (String × String)
  dirs : List String
deriving DecidableEq

/-- Content of the file at resolved path `p`, if any. -/
def getFile (fs : FileSystem) (p : String) : Option String :=
  (fs.files.find? (fun e => e.1 = p)).map (·.2)

def fileExists (fs : FileSystem) (p : String) : Bool := (getFile fs p).isSome

def dirExists (fs : FileSystem) (p : String) : Bool := decide (p ∈ fs.dirs)

/-- Write (create or overwrite) the file at resolved path `p`. -/
def setFile (fs : FileSystem) (p v : String) : FileSystem :=
  { fs with files := (p, v) :: fs.files.filter (fun e => ¬ e.1 = p) }

/-- Remove the file at resolved path `p`. -/
def delFile (fs : FileSystem) (p : String) : FileSystem :=
  { fs with files := fs.files.filter (fun e => ¬ e.1 = p) }

/-- The environment of a run: the process working directory and the storage
device holding each resolved path (`rename` fails with `EXDEV` across
devices). -/
structure Env where
  cwd : String
  device : String → Nat

/-- The proper ancestors and the directory itself, as resolved paths, of a
resolved absolute path: what `fs.mkdir(p, { recursive: true })` creates. -/
def ancestorsOf (rp : String) : List String :=
  let segs := (splitOnCh '/' rp.data).filter (fun t => t ≠ [])
  (List.range segs.length).map (fun i => ⟨'/' :: joinWith '/' (segs.take (i + 1))⟩)

/-- `fs.mkdir(p, { recursive: true })`: create the directory and any missing
ancestors; succeeds when they already exist.  (The directory set is a list;
re-adding an existing directory is harmless under the set semantics of
`dirExists`.) -/
def fsMkdirRec (env : Env) (fs : FileSystem) (p : String) : FileSystem :=
  let rp := jsResolve env.cwd p
  { fs with dirs := fs.dirs ++ ancestorsOf rp }

/-- `fs.access(p)`: succeeds when a file or directory exists at `p`. -/
def fsAccess (env : Env) (fs : FileSystem) (p : String) : Except JsError Unit :=
  let rp := jsResolve env.cwd p
  if fileExists fs rp || dirExists fs rp then .ok () else .error (enoentErr "access" p)

/-- `fs.unlink(p)`: remove a file; `EISDIR` on a directory, `ENOENT` when
nothing exists at `p`. -/
def fsUnlink (env : Env) (fs : FileSystem) (p : String) : Except JsError FileSystem :=
  let rp := jsResolve env.cwd p
  if fileExists fs rp then .ok (delFile fs rp)
  else if dirExists fs rp then .error (eisdirErr "unlink" p)
  else .error (enoentErr "unlink" p)

/-- `fs.rename(src, dst)`: `ENOENT` when the source file is missing, `EXDEV`
across devices, `EISDIR` when a directory sits at the destination; otherwise
an atomic move that overwrites any destination file. -/
def fsRename (env : Env) (fs : FileSystem) (src dst : String) : Except JsError FileSystem :=
  let rs := jsResolve env.cwd src
  let rd := jsResolve env.cwd dst
  match getFile fs rs with
  | none => .error (enoentErr "rename" src)
  | some content =>
    if env.device rs ≠ env.device rd then .error (exdevErr src dst)
    else if dirExists fs rd then .error (eisdirErr "rename" dst)
    else .ok (setFile (delFile fs rs) rd content)

/-- `fs.copyFile(src, dst)`: copy the full contents, overwriting `dst`. -/
def fsCopyFile (env : Env) (fs : FileSystem) (src dst : String) : Except JsError FileSystem :=
  let rs := jsResolve env.cwd src
  let rd := jsResolve env.cwd dst
  match getFile fs rs with
  | none => .error (enoentErr "copyFile" src)
  | some content =>
    if dirExists fs rd then .error (eisdirErr "copyFile" dst)
    else .ok (setFile fs rd content)

/-- `RenameOptions` of src/renamer.ts; `dryRun`, `replace` and `targetDir`
are optional fields. -/
structure RenameOptions where
  apply : Bool
  dryRun : Option Bool := none
  replace : Option Bool := none
  targetDir : Option String := none

/-- JavaScript truthiness of an optional boolean. -/
def optTrue : Option Bool → Bool
  | some b => b
  | none => false

/-- `options.targetDir ? options.targetDir : origDir` — the empty string is
falsy in JavaScript. -/
def destDirOf (options : RenameOptions) (originalPath : String) : String :=
  match options.targetDir with
  | some t => if t = "" then jsDirname originalPath else t
  | none => jsDirname originalPath

/-- The destination path `path.join(destDir, newBasename)`. -/
def newPathOf (options : RenameOptions) (originalPath newBasename : String) : String :=
  jsJoin (destDirOf options originalPath) newBasename

/-- The filesystem calls `renameFile` can make, in order of execution. -/
inductive FsOp
  | mkdir (dir : String)
  | access (p : String)
  | unlink (p : String)
  | rename (src dst : String)
  | copyFile (src dst : String)
deriving DecidableEq

/-- Outcome of `renameFile`: the returned path or thrown error, the final
filesystem, and the trace of filesystem calls made. -/
structure RenameResult where
  result : Except JsError String
  fs : FileSystem
  trace : List FsOp

/-- The single `catch` block at lines 84-93 of src/renamer.ts: rethrow only
when the message starts with `"Destination exists"`; `ENOENT` and every other
error are swallowed. -/
def catchRethrows (e : JsError) : Bool :=
  if e.code = some "ENOENT" then false
  else if msgStartsWith e "Destination exists" then true
  else false

/-- `renameFile` of src/renamer.ts, lines 53-108. -/
def renameFile (env : Env) (fs0 : FileSystem) (originalPath newBasename : String)
    (options : RenameOptions) : RenameResult :=
  let destDir := destDirOf options originalPath
  let newPath := jsJoin destDir newBasename
  if jsResolve env.cwd originalPath = jsResolve env.cwd newPath then
    ⟨.ok newPath, fs0, []⟩
  else if options.apply = false then
    ⟨.ok newPath, fs0, []⟩
  else
    let fs1 := fsMkdirRec env fs0 destDir
    let checked : Option JsError × FileSystem × List FsOp :=
      match fsAccess env fs1 newPath with
      | .error e =>
        if catchRethrows e then (some e, fs1, [.mkdir destDir, .access newPath])
        else (none, fs1, [.mkdir destDir, .access newPath])
      | .ok _ =>
        if optTrue options.replace = false then
          let e := destExistsErr newPath
          if catchRethrows e then (some e, fs1, [.mkdir destDir, .access newPath])
          else (none, fs1, [.mkdir destDir, .access newPath])
        else
          match fsUnlink env fs1 newPath with
          | .ok fs2 => (none, fs2, [.mkdir destDir, .access newPath, .unlink newPath])
          | .error e =>
            if catchRethrows e then (some e, fs1, [.mkdir destDir, .access newPath, .unlink newPath])
            else (none, fs1, [.mkdir destDir, .access newPath, .unlink newPath])
    match checked with
    | (some e, fsx, tx) => ⟨.error e, fsx, tx⟩
    | (none, fs2, t2) =>
      match fsRename env fs2 originalPath newPath with
      | .ok fs3 => ⟨.ok newPath, fs3, t2 ++ [.rename originalPath newPath]⟩
      | .error e =>
        if e.code = some "EXDEV" then
          match fsCopyFile env fs2 originalPath newPath with
          | .ok fs3 =>
            match fsUnlink env fs3 originalPath with
            | .ok fs4 =>
              ⟨.ok newPath, fs4,
               t2 ++ [.rename originalPath newPath, .copyFile originalPath newPath,
                      .unlink originalPath]⟩
            | .error e2 =>
              ⟨.error e2, fs3,
               t2 ++ [.rename originalPath newPath, .copyFile originalPath newPath,
                      .unlink originalPath]⟩
          | .error e2 =>
            ⟨.error e2, fs2,
             t2 ++ [.rename originalPath newPath, .copyFile originalPath newPath]⟩
        else ⟨.error e, fs2, t2 ++ [.rename originalPath newPath]⟩

end Mnamer

/-! ## Claims about `renameFile` (dry-run purity, no-op, dryRun irrelevance) -/

namespace Mnamer

/-- C1: with `options.apply = false`, `renameFile` returns the computed
destination path (`targetDir` joined with the new basename when `targetDir`
is set and nonempty, otherwise the original file's parent directory joined
with it) and performs no filesystem operation at all: the state is returned
unchanged and the trace of filesystem calls is empty, regardless of whether
the destination exists. -/
theorem renameFile_dry_run_pure (env : Env) (fs : FileSystem)
    (originalPath newBasename : String) (options : RenameOptions)
    (h : options.apply = false) :
    renameFile env fs originalPath newBasename options =
      ⟨.ok (newPathOf options originalPath newBasename), fs, []⟩ := by
  simp [renameFile, newPathOf, h]

/-- Witness for C1 at a concrete input. -/
theorem renameFile_dry_run_pure_witness :
    renameFile ⟨"/cwd", fun _ => 0⟩ ⟨[("/cwd/a.mkv", "x")], ["/cwd"]⟩ "a.mkv" "b.mkv"
        ⟨false, none, none, none⟩ =
      ⟨.ok (newPathOf ⟨false, none, none, none⟩ "a.mkv" "b.mkv"),
       ⟨[("/cwd/a.mkv", "x")], ["/cwd"]⟩, []⟩ :=
  renameFile_dry_run_pure _ _ _ _ _ rfl

/-- C2: when the resolved original path equals the resolved computed
destination path, `renameFile` returns that destination path and performs
zero filesystem mutations, for any value of `apply`. -/
theorem renameFile_noop_on_identical (env : Env) (fs : FileSystem)
    (originalPath newBasename : String) (options : RenameOptions)
    (h : jsResolve env.cwd originalPath =
         jsResolve env.cwd (newPathOf options originalPath newBasename)) :
    renameFile env fs originalPath newBasename options =
      ⟨.ok (newPathOf options originalPath newBasename), fs, []⟩ := by
  simp only [newPathOf] at h
  simp [renameFile, newPathOf, h]

/-- Witness for C2 at a concrete input, with `apply = true`. -/
theorem renameFile_noop_on_identical_witness :
    renameFile ⟨"/cwd", fun _ => 0⟩ ⟨[("/cwd/a.mkv", "x")], ["/cwd"]⟩ "a.mkv" "a.mkv"
        ⟨true, none, none, none⟩ =
      ⟨.ok (newPathOf ⟨true, none, none, none⟩ "a.mkv" "a.mkv"),
       ⟨[("/cwd/a.mkv", "x")], ["/cwd"]⟩, []⟩ :=
  renameFile_noop_on_identical _ _ _ _ _ (by decide)

/-- C9: the `dryRun` field of `RenameOptions` is never read by `renameFile`:
two option records agreeing on `apply`, `replace` and `targetDir` produce
identical results (same returned path or error, same final filesystem, same
trace of filesystem calls), whatever their `dryRun` fields. -/
theorem renameFile_ignores_dryRun (env : Env) (fs : FileSystem)
    (originalPath newBasename : String) (o1 o2 : RenameOptions)
    (h1 : o1.apply = o2.apply) (h2 : o1.replace = o2.replace)
    (h3 : o1.targetDir = o2.targetDir) :
    renameFile env fs originalPath newBasename o1 =
      renameFile env fs originalPath newBasename o2 := by
  cases o1
  cases o2
  dsimp only at h1 h2 h3
  subst h1
  subst h2
  subst h3
  rfl

/-- Witness for C9 at a concrete input: `dryRun := some true` versus
`dryRun := some false`. -/
theorem renameFile_ignores_dryRun_witness :
    renameFile ⟨"/cwd", fun _ => 0⟩ ⟨[("/cwd/a.mkv", "x")], ["/cwd"]⟩ "a.mkv" "b.mkv"
        ⟨true, some true, none, none⟩ =
      renameFile ⟨"/cwd", fun _ => 0⟩ ⟨[("/cwd/a.mkv", "x")], ["/cwd"]⟩ "a.mkv" "b.mkv"
        ⟨true, some false, none, none⟩ :=
  renameFile_ignores_dryRun _ _ _ _ _ _ rfl rfl rfl

end Mnamer

namespace Mnamer

/-! ### Lemmas about the filesystem model -/

theorem getFile_mkdir (env : Env) (fs : FileSystem) (p q : String) :
    getFile (fsMkdirRec env fs p) q = getFile fs q := rfl

theorem fileExists_mkdir (env : Env) (fs : FileSystem) (p q : String) :
    fileExists (fsMkdirRec env fs p) q = fileExists fs q := rfl

theorem dirExists_mkdir (env : Env) (fs : FileSystem) (p q : String) :
    dirExists (fsMkdirRec env fs p) q =
      (dirExists fs q || decide (q ∈ ancestorsOf (jsResolve env.cwd p))) := by
  simp [dirExists, fsMkdirRec]

theorem dirExists_delFile (fs : FileSystem) (p q : String) :
    dirExists (delFile fs p) q = dirExists fs q := rfl

theorem dirExists_setFile (fs : FileSystem) (p v q : String) :
    dirExists (setFile fs p v) q = dirExists fs q := rfl

theorem findKey_filter (l : List (String × String)) (p q : String) (h : ¬ q = p) :
    (l.filter (fun e => ¬ e.1 = p)).find? (fun e => e.1 = q) =
      l.find? (fun e => e.1 = q) := by
  induction l with
  | nil => rfl
  | cons e t ih =>
    by_cases hp : e.1 = p
    · have hq : ¬ e.1 = q := by
        intro hq
        rw [← hq, hp] at h
        exact h rfl
      rw [List.filter_cons_of_neg (by simp [hp]),
        List.find?_cons_of_neg _ (by simp [hq]), ih]
    · rw [List.filter_cons_of_pos (by simp [hp])]
      by_cases hq : e.1 = q
      · rw [List.find?_cons_of_pos _ (by simp [hq]),
          List.find?_cons_of_pos _ (by simp [hq])]
      · rw [List.find?_cons_of_neg _ (by simp [hq]),
          List.find?_cons_of_neg _ (by simp [hq]), ih]

theorem getFile_delFile_ne (fs : FileSystem) (p q : String) (h : ¬ q = p) :
    getFile (delFile fs p) q = getFile fs q := by
  unfold getFile delFile
  exact congrArg (Option.map _) (findKey_filter fs.files p q h)

theorem getFile_delFile_self (fs : FileSystem) (p : String) :
    getFile (delFile fs p) p = none := by
  unfold getFile delFile
  have h : (fs.files.filter (fun e => ¬ e.1 = p)).find? (fun e => e.1 = p) = none := by
    rw [List.find?_eq_none]
    intro e he
    have hm := List.mem_filter.mp he
    simpa using hm.2
  simp [h]

theorem getFile_setFile_self (fs : FileSystem) (p v : String) :
    getFile (setFile fs p v) p = some v := by
  unfold getFile setFile
  simp [List.find?_cons]

theorem getFile_setFile_ne (fs : FileSystem) (p v : String) (q : String) (h : ¬ q = p) :
    getFile (setFile fs p v) q = getFile fs q := by
  unfold getFile setFile
  have hd : (decide ((p, v).1 = q)) = false := by
    simp only [decide_eq_false_iff_not]
    intro hq
    exact h hq.symm
  simp only [List.find?_cons, hd]
  exact congrArg (Option.map _) (findKey_filter fs.files p q h)

/-! ### The `catch` discrimination of `renameFile` -/

theorem catchRethrows_enoent (syscall p : String) :
    catchRethrows (enoentErr syscall p) = false := by
  simp [catchRethrows, enoentErr]

theorem enoentErr_code (syscall p : String) : (enoentErr syscall p).code = some "ENOENT" := rfl

theorem eisdirErr_code (syscall p : String) : (eisdirErr syscall p).code = some "EISDIR" := rfl

theorem catchRethrows_destExists (p : String) :
    catchRethrows (destExistsErr p) = true := by
  have hpre : ("Destination exists").data.isPrefixOf
      ("Destination exists and --replace not set: " ++ p).data = true := by
    rw [List.isPrefixOf_iff_prefix, String.data_append]
    exact List.IsPrefix.trans ⟨(" and --replace not set: ").data, by decide⟩
      (List.prefix_append _ _)
  simp [catchRethrows, destExistsErr, msgStartsWith, hpre]

theorem catchRethrows_eisdir (syscall p : String) :
    catchRethrows (eisdirErr syscall p) = false := by
  have hpre : ("Destination exists").data.isPrefixOf
      ("EISDIR: illegal operation on a directory, " ++ syscall ++ " " ++ p).data = false := by
    rw [Bool.eq_false_iff]
    intro hb
    rw [List.isPrefixOf_iff_prefix] at hb
    obtain ⟨t, ht⟩ := hb
    have hD : ("Destination exists").data = 'D' :: ("estination exists").data := rfl
    have hE : ("EISDIR: illegal operation on a directory, ").data =
        'E' :: ("ISDIR: illegal operation on a directory, ").data := rfl
    rw [hD, List.cons_append] at ht
    rw [String.data_append, String.data_append, String.data_append, hE,
      List.cons_append, List.cons_append] at ht
    have := (List.cons.injEq _ _ _ _).mp ht
    exact absurd this.1 (by decide)
  simp [catchRethrows, eisdirErr, msgStartsWith, hpre]

end Mnamer

namespace Mnamer

/-- C3: applying with a distinct resolved destination that already exists as
a file: with `replace` unset (or false) `renameFile` fails with the
`Destination exists` error; with `replace` set, the preexisting destination
file is deleted before the move (see the trace order), and afterwards the
destination holds the source file's content while the source entry is gone. -/
theorem renameFile_destination_conflict (env : Env) (fs : FileSystem)
    (originalPath newBasename : String) (options : RenameOptions)
    (happly : options.apply = true)
    (hne : ¬ jsResolve env.cwd originalPath =
        jsResolve env.cwd (newPathOf options originalPath newBasename))
    (hex : fileExists fs (jsResolve env.cwd (newPathOf options originalPath newBasename)) = true) :
    (optTrue options.replace = false →
      (renameFile env fs originalPath newBasename options).result =
        .error (destExistsErr (newPathOf options originalPath newBasename))) ∧
    (∀ content,
      optTrue options.replace = true →
      getFile fs (jsResolve env.cwd originalPath) = some content →
      env.device (jsResolve env.cwd originalPath) =
        env.device (jsResolve env.cwd (newPathOf options originalPath newBasename)) →
      dirExists fs (jsResolve env.cwd (newPathOf options originalPath newBasename)) = false →
      ¬ jsResolve env.cwd (newPathOf options originalPath newBasename) ∈
          ancestorsOf (jsResolve env.cwd (destDirOf options originalPath)) →
      (renameFile env fs originalPath newBasename options).result =
          .ok (newPathOf options originalPath newBasename) ∧
        getFile (renameFile env fs originalPath newBasename options).fs
            (jsResolve env.cwd (newPathOf options originalPath newBasename)) = some content ∧
        getFile (renameFile env fs originalPath newBasename options).fs
            (jsResolve env.cwd originalPath) = none ∧
        (renameFile env fs originalPath newBasename options).trace =
          [FsOp.mkdir (destDirOf options originalPath),
           FsOp.access (newPathOf options originalPath newBasename),
           FsOp.unlink (newPathOf options originalPath newBasename),
           FsOp.rename originalPath (newPathOf options originalPath newBasename)]) := by
  simp only [newPathOf] at hne hex ⊢
  have hacc : fsAccess env (fsMkdirRec env fs (destDirOf options originalPath))
      (jsJoin (destDirOf options originalPath) newBasename) = .ok () := by
    simp [fsAccess, fileExists_mkdir, hex]
  constructor
  · intro hrep
    simp [renameFile, hne, happly, hrep, hacc, catchRethrows_destExists]
  · intro content hrep hsrc hdev hdir hanc
    have hunl : fsUnlink env (fsMkdirRec env fs (destDirOf options originalPath))
        (jsJoin (destDirOf options originalPath) newBasename) =
        .ok (delFile (fsMkdirRec env fs (destDirOf options originalPath))
          (jsResolve env.cwd (jsJoin (destDirOf options originalPath) newBasename))) := by
      simp [fsUnlink, fileExists_mkdir, hex]
    have hgf : getFile (delFile (fsMkdirRec env fs (destDirOf options originalPath))
        (jsResolve env.cwd (jsJoin (destDirOf options originalPath) newBasename)))
        (jsResolve env.cwd originalPath) = some content := by
      rw [getFile_delFile_ne _ _ _ hne, getFile_mkdir]
      exact hsrc
    have hren : fsRename env (delFile (fsMkdirRec env fs (destDirOf options originalPath))
          (jsResolve env.cwd (jsJoin (destDirOf options originalPath) newBasename)))
        originalPath (jsJoin (destDirOf options originalPath) newBasename) =
        .ok (setFile (delFile (delFile (fsMkdirRec env fs (destDirOf options originalPath))
            (jsResolve env.cwd (jsJoin (destDirOf options originalPath) newBasename)))
            (jsResolve env.cwd originalPath))
          (jsResolve env.cwd (jsJoin (destDirOf options originalPath) newBasename)) content) := by
      simp only [fsRename, hgf, hdev]
      simp [dirExists_delFile, dirExists_mkdir, hdir, hanc]
    have hrf : renameFile env fs originalPath newBasename options =
        ⟨.ok (jsJoin (destDirOf options originalPath) newBasename),
         setFile (delFile (delFile (fsMkdirRec env fs (destDirOf options originalPath))
             (jsResolve env.cwd (jsJoin (destDirOf options originalPath) newBasename)))
             (jsResolve env.cwd originalPath))
           (jsResolve env.cwd (jsJoin (destDirOf options originalPath) newBasename)) content,
         [FsOp.mkdir (destDirOf options originalPath),
          FsOp.access (jsJoin (destDirOf options originalPath) newBasename),
          FsOp.unlink (jsJoin (destDirOf options originalPath) newBasename),
          FsOp.rename originalPath (jsJoin (destDirOf options originalPath) newBasename)]⟩ := by
      simp [renameFile, hne, happly, hrep, hacc, hunl, hren]
    refine ⟨by rw [hrf], ?_, ?_, by rw [hrf]⟩
    · rw [hrf]
      exact getFile_setFile_self _ _ _
    · rw [hrf]
      rw [getFile_setFile_ne _ _ _ _ hne, getFile_delFile_self]

/-- Witness for C3: both conjuncts at concrete inputs (the second with
`replace := some true` and source content `"x"` over destination `"y"`). -/
theorem renameFile_destination_conflict_witness :
    ((renameFile ⟨"/cwd", fun _ => 0⟩ ⟨[("/cwd/a.mkv", "x"), ("/cwd/b.mkv", "y")], ["/cwd"]⟩
        "a.mkv" "b.mkv" ⟨true, none, none, none⟩).result =
      .error (destExistsErr (newPathOf ⟨true, none, none, none⟩ "a.mkv" "b.mkv"))) ∧
    ((renameFile ⟨"/cwd", fun _ => 0⟩ ⟨[("/cwd/a.mkv", "x"), ("/cwd/b.mkv", "y")], ["/cwd"]⟩
        "a.mkv" "b.mkv" ⟨true, none, some true, none⟩).result =
        .ok (newPathOf ⟨true, none, some true, none⟩ "a.mkv" "b.mkv") ∧
      getFile (renameFile ⟨"/cwd", fun _ => 0⟩
          ⟨[("/cwd/a.mkv", "x"), ("/cwd/b.mkv", "y")], ["/cwd"]⟩
          "a.mkv" "b.mkv" ⟨true, none, some true, none⟩).fs
        (jsResolve "/cwd" (newPathOf ⟨true, none, some true, none⟩ "a.mkv" "b.mkv")) = some "x" ∧
      getFile (renameFile ⟨"/cwd", fun _ => 0⟩
          ⟨[("/cwd/a.mkv", "x"), ("/cwd/b.mkv", "y")], ["/cwd"]⟩
          "a.mkv" "b.mkv" ⟨true, none, some true, none⟩).fs
        (jsResolve "/cwd" "a.mkv") = none ∧
      (renameFile ⟨"/cwd", fun _ => 0⟩ ⟨[("/cwd/a.mkv", "x"), ("/cwd/b.mkv", "y")], ["/cwd"]⟩
          "a.mkv" "b.mkv" ⟨true, none, some true, none⟩).trace =
        [FsOp.mkdir (destDirOf ⟨true, none, some true, none⟩ "a.mkv"),
         FsOp.access (newPathOf ⟨true, none, some true, none⟩ "a.mkv" "b.mkv"),
         FsOp.unlink (newPathOf ⟨true, none, some true, none⟩ "a.mkv" "b.mkv"),
         FsOp.rename "a.mkv" (newPathOf ⟨true, none, some true, none⟩ "a.mkv" "b.mkv")]) := by
  constructor
  · exact (renameFile_destination_conflict _ _ _ _ _ rfl (by decide) (by decide)).1 rfl
  · exact (renameFile_destination_conflict _ _ _ _ _ rfl (by decide) (by decide)).2
      "x" rfl (by decide) rfl (by decide) (by decide)

end Mnamer

namespace Mnamer

/-- C4: when applying to a fresh destination, a primary rename failing with
the cross-device condition (`EXDEV`) triggers exactly one copy-then-delete
fallback and returns the destination path with no error (first conjunct: the
trace shows the single `copyFile` followed by the `unlink` of the original);
a primary rename failing with any other condition (here `ENOENT`, the
missing-source error) is propagated to the caller as-is (second conjunct). -/
theorem renameFile_exdev_fallback (env : Env) (fs : FileSystem)
    (originalPath newBasename : String) (options : RenameOptions)
    (happly : options.apply = true)
    (hne : ¬ jsResolve env.cwd originalPath =
        jsResolve env.cwd (newPathOf options originalPath newBasename))
    (hnof : fileExists fs (jsResolve env.cwd (newPathOf options originalPath newBasename)) = false)
    (hnod : dirExists fs (jsResolve env.cwd (newPathOf options originalPath newBasename)) = false)
    (hanc : ¬ jsResolve env.cwd (newPathOf options originalPath newBasename) ∈
        ancestorsOf (jsResolve env.cwd (destDirOf options originalPath))) :
    (∀ content,
      getFile fs (jsResolve env.cwd originalPath) = some content →
      ¬ env.device (jsResolve env.cwd originalPath) =
          env.device (jsResolve env.cwd (newPathOf options originalPath newBasename)) →
      (renameFile env fs originalPath newBasename options).result =
          .ok (newPathOf options originalPath newBasename) ∧
        getFile (renameFile env fs originalPath newBasename options).fs
            (jsResolve env.cwd (newPathOf options originalPath newBasename)) = some content ∧
        getFile (renameFile env fs originalPath newBasename options).fs
            (jsResolve env.cwd originalPath) = none ∧
        (renameFile env fs originalPath newBasename options).trace =
          [FsOp.mkdir (destDirOf options originalPath),
           FsOp.access (newPathOf options originalPath newBasename),
           FsOp.rename originalPath (newPathOf options originalPath newBasename),
           FsOp.copyFile originalPath (newPathOf options originalPath newBasename),
           FsOp.unlink originalPath]) ∧
    (getFile fs (jsResolve env.cwd originalPath) = none →
      (renameFile env fs originalPath newBasename options).result =
          .error (enoentErr "rename" originalPath) ∧
        (renameFile env fs originalPath newBasename options).trace =
          [FsOp.mkdir (destDirOf options originalPath),
           FsOp.access (newPathOf options originalPath newBasename),
           FsOp.rename originalPath (newPathOf options originalPath newBasename)]) := by
  simp only [newPathOf] at hne hnof hnod hanc ⊢
  have hacc : fsAccess env (fsMkdirRec env fs (destDirOf options originalPath))
      (jsJoin (destDirOf options originalPath) newBasename) =
      .error (enoentErr "access" (jsJoin (destDirOf options originalPath) newBasename)) := by
    simp [fsAccess, fileExists_mkdir, hnof, dirExists_mkdir, hnod, hanc]
  have hdir1 : dirExists (fsMkdirRec env fs (destDirOf options originalPath))
      (jsResolve env.cwd (jsJoin (destDirOf options originalPath) newBasename)) = false := by
    simp [dirExists_mkdir, hnod, hanc]
  constructor
  · intro content hsrc hdev
    have hren : fsRename env (fsMkdirRec env fs (destDirOf options originalPath))
        originalPath (jsJoin (destDirOf options originalPath) newBasename) =
        .error (exdevErr originalPath (jsJoin (destDirOf options originalPath) newBasename)) := by
      simp only [fsRename, getFile_mkdir, hsrc]
      simp [hdev]
    have hcopy : fsCopyFile env (fsMkdirRec env fs (destDirOf options originalPath))
        originalPath (jsJoin (destDirOf options originalPath) newBasename) =
        .ok (setFile (fsMkdirRec env fs (destDirOf options originalPath))
          (jsResolve env.cwd (jsJoin (destDirOf options originalPath) newBasename)) content) := by
      simp only [fsCopyFile, getFile_mkdir, hsrc]
      simp [hdir1]
    have hunl : fsUnlink env (setFile (fsMkdirRec env fs (destDirOf options originalPath))
          (jsResolve env.cwd (jsJoin (destDirOf options originalPath) newBasename)) content)
        originalPath =
        .ok (delFile (setFile (fsMkdirRec env fs (destDirOf options originalPath))
            (jsResolve env.cwd (jsJoin (destDirOf options originalPath) newBasename)) content)
          (jsResolve env.cwd originalPath)) := by
      have hf : fileExists (setFile (fsMkdirRec env fs (destDirOf options originalPath))
          (jsResolve env.cwd (jsJoin (destDirOf options originalPath) newBasename)) content)
          (jsResolve env.cwd originalPath) = true := by
        unfold fileExists
        rw [getFile_setFile_ne _ _ _ _ hne, getFile_mkdir, hsrc]
        rfl
      simp [fsUnlink, hf]
    have hrf : renameFile env fs originalPath newBasename options =
        ⟨.ok (jsJoin (destDirOf options originalPath) newBasename),
         delFile (setFile (fsMkdirRec env fs (destDirOf options originalPath))
             (jsResolve env.cwd (jsJoin (destDirOf options originalPath) newBasename)) content)
           (jsResolve env.cwd originalPath),
         [FsOp.mkdir (destDirOf options originalPath),
          FsOp.access (jsJoin (destDirOf options originalPath) newBasename),
          FsOp.rename originalPath (jsJoin (destDirOf options originalPath) newBasename),
          FsOp.copyFile originalPath (jsJoin (destDirOf options originalPath) newBasename),
          FsOp.unlink originalPath]⟩ := by
      simp [renameFile, hne, happly, hacc, catchRethrows_enoent, hren, exdevErr, hcopy, hunl]
    refine ⟨by rw [hrf], ?_, ?_, by rw [hrf]⟩
    · rw [hrf]
      rw [getFile_delFile_ne _ _ _ (fun hh => hne hh.symm)]
      exact getFile_setFile_self _ _ _
    · rw [hrf]
      exact getFile_delFile_self _ _
  · intro hsrc
    have hren : fsRename env (fsMkdirRec env fs (destDirOf options originalPath))
        originalPath (jsJoin (destDirOf options originalPath) newBasename) =
        .error (enoentErr "rename" originalPath) := by
      simp only [fsRename, getFile_mkdir, hsrc]
    have hrf : renameFile env fs originalPath newBasename options =
        ⟨.error (enoentErr "rename" originalPath),
         fsMkdirRec env fs (destDirOf options originalPath),
         [FsOp.mkdir (destDirOf options originalPath),
          FsOp.access (jsJoin (destDirOf options originalPath) newBasename),
          FsOp.rename originalPath (jsJoin (destDirOf options originalPath) newBasename)]⟩ := by
      simp [renameFile, hne, happly, hacc, catchRethrows_enoent, hren, enoentErr_code]
    exact ⟨by rw [hrf], by rw [hrf]⟩

/-- Witness for C4: a cross-device move of `/cwd/a.mkv` to `/t/a2.mkv`
falls back to copy-then-delete; renaming a missing source propagates
`ENOENT`. -/
theorem renameFile_exdev_fallback_witness :
    ((renameFile ⟨"/cwd", fun p => if p = "/cwd/a.mkv" then 1 else 0⟩
        ⟨[("/cwd/a.mkv", "x")], ["/cwd"]⟩ "a.mkv" "a2.mkv"
        ⟨true, none, none, some "/t"⟩).result =
        .ok (newPathOf ⟨true, none, none, some "/t"⟩ "a.mkv" "a2.mkv") ∧
      getFile (renameFile ⟨"/cwd", fun p => if p = "/cwd/a.mkv" then 1 else 0⟩
          ⟨[("/cwd/a.mkv", "x")], ["/cwd"]⟩ "a.mkv" "a2.mkv"
          ⟨true, none, none, some "/t"⟩).fs
        (jsResolve "/cwd" (newPathOf ⟨true, none, none, some "/t"⟩ "a.mkv" "a2.mkv")) =
          some "x" ∧
      getFile (renameFile ⟨"/cwd", fun p => if p = "/cwd/a.mkv" then 1 else 0⟩
          ⟨[("/cwd/a.mkv", "x")], ["/cwd"]⟩ "a.mkv" "a2.mkv"
          ⟨true, none, none, some "/t"⟩).fs (jsResolve "/cwd" "a.mkv") = none ∧
      (renameFile ⟨"/cwd", fun p => if p = "/cwd/a.mkv" then 1 else 0⟩
          ⟨[("/cwd/a.mkv", "x")], ["/cwd"]⟩ "a.mkv" "a2.mkv"
          ⟨true, none, none, some "/t"⟩).trace =
        [FsOp.mkdir (destDirOf ⟨true, none, none, some "/t"⟩ "a.mkv"),
         FsOp.access (newPathOf ⟨true, none, none, some "/t"⟩ "a.mkv" "a2.mkv"),
         FsOp.rename "a.mkv" (newPathOf ⟨true, none, none, some "/t"⟩ "a.mkv" "a2.mkv"),
         FsOp.copyFile "a.mkv" (newPathOf ⟨true, none, none, some "/t"⟩ "a.mkv" "a2.mkv"),
         FsOp.unlink "a.mkv"]) ∧
    ((renameFile ⟨"/cwd", fun _ => 0⟩ ⟨[], []⟩ "gone.mkv" "b.mkv"
        ⟨true, none, none, none⟩).result = .error (enoentErr "rename" "gone.mkv")) := by
  constructor
  · exact (renameFile_exdev_fallback _ _ _ _ _ rfl (by decide) (by decide) (by decide)
      (by decide)).1 "x" rfl (by decide)
  · exact ((renameFile_exdev_fallback ⟨"/cwd", fun _ => 0⟩ ⟨[], []⟩ "gone.mkv" "b.mkv"
      ⟨true, none, none, none⟩ rfl (by decide) (by decide) (by decide) (by decide)).2 rfl).1

/-- C10: in apply mode with `replace` set, when the destination exists as a
directory, the `fs.access` check succeeds but the deletion of the destination
fails with `EISDIR` (not `ENOENT`); `renameFile` swallows that deletion
failure (the `unlink` error does not become the result) and still proceeds to
attempt the rename, whose own outcome is what the caller observes. -/
theorem renameFile_swallows_unlink_error (env : Env) (fs : FileSystem)
    (originalPath newBasename : String) (options : RenameOptions) (content : String)
    (happly : options.apply = true)
    (hrep : optTrue options.replace = true)
    (hne : ¬ jsResolve env.cwd originalPath =
        jsResolve env.cwd (newPathOf options originalPath newBasename))
    (hdirY : dirExists fs (jsResolve env.cwd (newPathOf options originalPath newBasename)) = true)
    (hfileN : fileExists fs (jsResolve env.cwd (newPathOf options originalPath newBasename)) = false)
    (hsrc : getFile fs (jsResolve env.cwd originalPath) = some content)
    (hdev : env.device (jsResolve env.cwd originalPath) =
        env.device (jsResolve env.cwd (newPathOf options originalPath newBasename))) :
    fsUnlink env (fsMkdirRec env fs (destDirOf options originalPath))
        (newPathOf options originalPath newBasename) =
      .error (eisdirErr "unlink" (newPathOf options originalPath newBasename)) ∧
    renameFile env fs originalPath newBasename options =
      ⟨.error (eisdirErr "rename" (newPathOf options originalPath newBasename)),
       fsMkdirRec env fs (destDirOf options originalPath),
       [FsOp.mkdir (destDirOf options originalPath),
        FsOp.access (newPathOf options originalPath newBasename),
        FsOp.unlink (newPathOf options originalPath newBasename),
        FsOp.rename originalPath (newPathOf options originalPath newBasename)]⟩ := by
  simp only [newPathOf] at hne hdirY hfileN hsrc hdev ⊢
  have hdir1 : dirExists (fsMkdirRec env fs (destDirOf options originalPath))
      (jsResolve env.cwd (jsJoin (destDirOf options originalPath) newBasename)) = true := by
    simp [dirExists_mkdir, hdirY]
  have hacc : fsAccess env (fsMkdirRec env fs (destDirOf options originalPath))
      (jsJoin (destDirOf options originalPath) newBasename) = .ok () := by
    simp [fsAccess, fileExists_mkdir, hdir1]
  have hunl : fsUnlink env (fsMkdirRec env fs (destDirOf options originalPath))
      (jsJoin (destDirOf options originalPath) newBasename) =
      .error (eisdirErr "unlink" (jsJoin (destDirOf options originalPath) newBasename)) := by
    simp [fsUnlink, fileExists_mkdir, hfileN, hdir1]
  have hren : fsRename env (fsMkdirRec env fs (destDirOf options originalPath))
      originalPath (jsJoin (destDirOf options originalPath) newBasename) =
      .error (eisdirErr "rename" (jsJoin (destDirOf options originalPath) newBasename)) := by
    simp only [fsRename, getFile_mkdir, hsrc]
    simp [hdev, hdir1]
  refine ⟨hunl, ?_⟩
  simp [renameFile, hne, happly, hrep, hacc, hunl, catchRethrows_eisdir, hren, eisdirErr_code]

/-- Witness for C10: destination `/cwd/d` is a directory, `replace` is set;
the unlink attempt fails with `EISDIR`, the rename is still attempted. -/
theorem renameFile_swallows_unlink_error_witness :
    fsUnlink ⟨"/cwd", fun _ => 0⟩
        (fsMkdirRec ⟨"/cwd", fun _ => 0⟩ ⟨[("/cwd/a.mkv", "x")], ["/cwd", "/cwd/d"]⟩
          (destDirOf ⟨true, none, some true, none⟩ "a.mkv"))
        (newPathOf ⟨true, none, some true, none⟩ "a.mkv" "d") =
      .error (eisdirErr "unlink" (newPathOf ⟨true, none, some true, none⟩ "a.mkv" "d")) ∧
    renameFile ⟨"/cwd", fun _ => 0⟩ ⟨[("/cwd/a.mkv", "x")], ["/cwd", "/cwd/d"]⟩
        "a.mkv" "d" ⟨true, none, some true, none⟩ =
      ⟨.error (eisdirErr "rename" (newPathOf ⟨true, none, some true, none⟩ "a.mkv" "d")),
       fsMkdirRec ⟨"/cwd", fun _ => 0⟩ ⟨[("/cwd/a.mkv", "x")], ["/cwd", "/cwd/d"]⟩
         (destDirOf ⟨true, none, some true, none⟩ "a.mkv"),
       [FsOp.mkdir (destDirOf ⟨true, none, some true, none⟩ "a.mkv"),
        FsOp.access (newPathOf ⟨true, none, some true, none⟩ "a.mkv" "d"),
        FsOp.unlink (newPathOf ⟨true, none, some true, none⟩ "a.mkv" "d"),
        FsOp.rename "a.mkv" (newPathOf ⟨true, none, some true, none⟩ "a.mkv" "d")]⟩ :=
  renameFile_swallows_unlink_error _ _ _ _ _ "x" rfl rfl (by decide) (by decide) (by decide)
    rfl (by decide)

end Mnamer

namespace Mnamer

/-! ## Claims about the records produced by `parseFilename` -/

/-- C8 (amended): the `originalName` stored in every parsed record is the
basename of the input with its extension stripped (`path.basename(fullname,
ext)`), not the full basename. -/
theorem parse_originalName (fullname : String) (r : ParsedMedia)
    (h : parseFilename fullname = some r) :
    r.originalName = ⟨jsBasenameExtL fullname.data (jsExtname fullname).data⟩ := by
  simp only [parseFilename] at h
  split at h
  · injection h with h2
    subst h2
    rfl
  · split at h
    · injection h with h2
      subst h2
      rfl
    · split at h
      · injection h with h2
        subst h2
        rfl
      · split at h
        · injection h with h2
          subst h2
          rfl
        · exact Option.noConfusion h

/-- Witness for C8's amended theorem at `"Show.S01E02.mkv"`. -/
theorem parse_originalName_witness :
    ({ type := .tv, title := "Show", season := some 1, episode := some 2, year := none,
       ext := ".mkv", originalName := "Show.S01E02" } : ParsedMedia).originalName =
      ⟨jsBasenameExtL ("Show.S01E02.mkv" : String).data (jsExtname "Show.S01E02.mkv").data⟩ :=
  parse_originalName "Show.S01E02.mkv" _ (by decide)

/-- C8 counterexample: for the plain basename `"Show.S01E02.mkv"` (its own
source filename without directory), the stored original-name field is
`"Show.S01E02"` — the extension has been stripped — which differs from the
source filename. -/
theorem parse_originalName_counterexample :
    (parseFilename "Show.S01E02.mkv").map ParsedMedia.originalName = some "Show.S01E02" ∧
      ¬ ("Show.S01E02" : String) = "Show.S01E02.mkv" := by
  exact ⟨by decide, by decide⟩

/-! ### Digit bounds for the season/episode captures (for C6) -/

theorem isDigitCh_val (c : Char) (h : isDigitCh c = true) : c.toNat - 48 ≤ 9 := by
  unfold isDigitCh at h
  simp only [Bool.and_eq_true, decide_eq_true_eq] at h
  omega

theorem jsParseIntL_two_le (d1 d2 : Char) (h1 : isDigitCh d1 = true)
    (h2 : isDigitCh d2 = true) : jsParseIntL [d1, d2] ≤ 99 := by
  have g1 := isDigitCh_val d1 h1
  have g2 := isDigitCh_val d2 h2
  simp only [jsParseIntL, List.foldl]
  omega

theorem jsParseIntL_one_le (d1 : Char) (h1 : isDigitCh d1 = true) :
    jsParseIntL [d1] ≤ 99 := by
  have g1 := isDigitCh_val d1 h1
  simp only [jsParseIntL, List.foldl]
  omega

theorem matchMarkEp_shape (mark : Char → Bool) (cs ep : List Char)
    (h : matchMarkEp mark cs = some ep) :
    ∃ d1 d2, ep = [d1, d2] ∧ isDigitCh d1 = true ∧ isDigitCh d2 = true := by
  unfold matchMarkEp at h
  split at h
  · next e d1 d2 _ =>
    split at h
    · next hc =>
      injection h with h2
      simp only [Bool.and_eq_true] at hc
      exact ⟨d1, d2, h2.symm, hc.1.2, hc.2⟩
    · exact Option.noConfusion h
  · exact Option.noConfusion h

theorem matchSeasonMark_bounds (mark : Char → Bool) (cs : List Char)
    (se : List Char × List Char) (h : matchSeasonMark mark cs = some se) :
    jsParseIntL se.1 ≤ 99 ∧ jsParseIntL se.2 ≤ 99 := by
  unfold matchSeasonMark at h
  split at h
  · exact Option.noConfusion h
  · next d1 rest =>
    split at h
    · next hd1 =>
      split at h
      · exact Option.noConfusion h
      · next d2 rest2 =>
        split at h
        · next hd2 =>
          split at h
          · next ep hep =>
            injection h with h2
            subst h2
            obtain ⟨e1, e2, he, g1, g2⟩ := matchMarkEp_shape mark rest2 ep hep
            subst he
            exact ⟨jsParseIntL_two_le d1 d2 hd1 hd2, jsParseIntL_two_le e1 e2 g1 g2⟩
          · split at h
            · next ep hep =>
              injection h with h2
              subst h2
              obtain ⟨e1, e2, he, g1, g2⟩ := matchMarkEp_shape mark (d2 :: rest2) ep hep
              subst he
              exact ⟨jsParseIntL_one_le d1 hd1, jsParseIntL_two_le e1 e2 g1 g2⟩
            · exact Option.noConfusion h
        · split at h
          · next ep hep =>
            injection h with h2
            subst h2
            obtain ⟨e1, e2, he, g1, g2⟩ := matchMarkEp_shape mark (d2 :: rest2) ep hep
            subst he
            exact ⟨jsParseIntL_one_le d1 hd1, jsParseIntL_two_le e1 e2 g1 g2⟩
          · exact Option.noConfusion h
    · exact Option.noConfusion h

theorem tvTail1_bounds (xs : List Char) (se : List Char × List Char)
    (h : tvTail1 xs = some se) : jsParseIntL se.1 ≤ 99 ∧ jsParseIntL se.2 ≤ 99 := by
  unfold tvTail1 at h
  split at h
  · next c rest =>
    split at h
    · exact matchSeasonMark_bounds _ _ _ h
    · exact Option.noConfusion h
  · exact Option.noConfusion h

theorem tvTail2_bounds (xs : List Char) (se : List Char × List Char)
    (h : tvTail2 xs = some se) : jsParseIntL se.1 ≤ 99 ∧ jsParseIntL se.2 ≤ 99 :=
  matchSeasonMark_bounds _ _ _ h

theorem scanWith_tail_prop {α : Type} (tail : List Char → Option α) (Q : α → Prop)
    (hq : ∀ xs r, tail xs = some r → Q r) :
    ∀ acc cs res, scanWith tail acc cs = some res → Q res.2 := by
  intro acc cs
  induction cs generalizing acc with
  | nil => exact fun res h => Option.noConfusion h
  | cons c rest ih =>
    intro res h
    unfold scanWith at h
    split at h
    · split at h
      · next r hr =>
        injection h with h2
        rw [← h2]
        exact hq _ _ hr
      · exact ih _ _ h
    · exact ih _ _ h

/-- C6 (amended): every record returned by `parseFilename` has, when of type
TV, no year and both season and episode present with values at most 99 (they
may be zero), and, when of type Movie, no season and no episode. -/
theorem parse_record_invariants (fullname : String) (r : ParsedMedia)
    (h : parseFilename fullname = some r) :
    (r.type = .tv → r.year = none ∧
      (∃ n, r.season = some n ∧ n ≤ 99) ∧ (∃ m, r.episode = some m ∧ m ≤ 99)) ∧
    (r.type = .movie → r.season = none ∧ r.episode = none) := by
  simp only [parseFilename] at h
  split at h
  · next rawTitle se hscan =>
    injection h with h2
    subst h2
    refine ⟨fun _ => ⟨rfl, ?_, ?_⟩, fun ht => MediaType.noConfusion ht⟩
    · exact ⟨jsParseIntL se.1, rfl,
        (scanWith_tail_prop tvTail1 (fun z => jsParseIntL z.1 ≤ 99 ∧ jsParseIntL z.2 ≤ 99)
          tvTail1_bounds [] _ _ hscan).1⟩
    · exact ⟨jsParseIntL se.2, rfl,
        (scanWith_tail_prop tvTail1 (fun z => jsParseIntL z.1 ≤ 99 ∧ jsParseIntL z.2 ≤ 99)
          tvTail1_bounds [] _ _ hscan).2⟩
  · split at h
    · next rawTitle se hscan =>
      injection h with h2
      subst h2
      refine ⟨fun _ => ⟨rfl, ?_, ?_⟩, fun ht => MediaType.noConfusion ht⟩
      · exact ⟨jsParseIntL se.1, rfl,
          (scanWith_tail_prop tvTail2 (fun z => jsParseIntL z.1 ≤ 99 ∧ jsParseIntL z.2 ≤ 99)
            tvTail2_bounds [] _ _ hscan).1⟩
      · exact ⟨jsParseIntL se.2, rfl,
          (scanWith_tail_prop tvTail2 (fun z => jsParseIntL z.1 ≤ 99 ∧ jsParseIntL z.2 ≤ 99)
            tvTail2_bounds [] _ _ hscan).2⟩
    · split at h
      · injection h with h2
        subst h2
        exact ⟨fun ht => MediaType.noConfusion ht, fun _ => ⟨rfl, rfl⟩⟩
      · split at h
        · injection h with h2
          subst h2
          exact ⟨fun ht => MediaType.noConfusion ht, fun _ => ⟨rfl, rfl⟩⟩
        · exact Option.noConfusion h

/-- The record parsed from `"Show.S01E02.mkv"`, used by witnesses. -/
def sampleTvRecord : ParsedMedia :=
  { type := .tv, title := "Show", season := some 1, episode := some 2, year := none,
    ext := ".mkv", originalName := "Show.S01E02" }

/-- Witness for C6's amended theorem at `"Show.S01E02.mkv"`. -/
theorem parse_record_invariants_witness :
    (sampleTvRecord.type = MediaType.tv → sampleTvRecord.year = none ∧
      (∃ n, sampleTvRecord.season = some n ∧ n ≤ 99) ∧
      (∃ m, sampleTvRecord.episode = some m ∧ m ≤ 99)) ∧
    (sampleTvRecord.type = MediaType.movie →
      sampleTvRecord.season = none ∧ sampleTvRecord.episode = none) :=
  parse_record_invariants "Show.S01E02.mkv" sampleTvRecord (by decide)

/-- C6 counterexample: `"...S00E00.mkv"` parses to a TV record whose title is
empty and whose season and episode are both `0` — not positive integers and
not a non-empty title, refuting the claimed invariants as stated. -/
theorem parse_record_invariants_counterexample :
    parseFilename "...S00E00.mkv" =
      some { type := .tv, title := "", season := some 0, episode := some 0, year := none,
             ext := ".mkv", originalName := "...S00E00" } := by
  decide

end Mnamer

namespace Mnamer

/-! ## Machinery for reasoning about the lazy scans (C5, C7)

`scanWith tail acc cs` finds the smallest nonempty split `cs = t ++ rest`
with `tail rest ≠ none` (title crossing no line terminator).  The lemmas
below compute it on strings of the shape `title ++ marker-part`. -/

theorem dropSeps_cons_sep (c : Char) (cs : List Char) (h : isSepCh c = true) :
    dropSeps (c :: cs) = dropSeps cs := by
  simp [dropSeps, List.dropWhile_cons, h]

theorem dropSeps_cons_nonsep (c : Char) (cs : List Char) (h : isSepCh c = false) :
    dropSeps (c :: cs) = c :: cs := by
  simp [dropSeps, List.dropWhile_cons, h]

theorem tvTail1_cons_sep (c : Char) (cs : List Char) (h : isSepCh c = true) :
    tvTail1 (c :: cs) = tvTail1 cs := by
  unfold tvTail1
  rw [dropSeps_cons_sep c cs h]

theorem tvTail2_cons_sep (c : Char) (cs : List Char) (h : isSepCh c = true) :
    tvTail2 (c :: cs) = tvTail2 cs := by
  unfold tvTail2
  rw [dropSeps_cons_sep c cs h]

theorem movieTail_cons_sep (c : Char) (cs : List Char) (h : isSepCh c = true) :
    movieTail (c :: cs) = movieTail cs := by
  unfold movieTail
  rw [dropSeps_cons_sep c cs h]

theorem tvTail1_cons_nonsep (c : Char) (t : List Char) (h : isSepCh c = false) :
    tvTail1 (c :: t) = if isSCh c then matchSeasonMark isECh t else none := by
  unfold tvTail1
  rw [dropSeps_cons_nonsep c t h]

theorem tvTail2_cons_nonsep (c : Char) (t : List Char) (h : isSepCh c = false) :
    tvTail2 (c :: t) = matchSeasonMark isXCh (c :: t) := by
  unfold tvTail2
  rw [dropSeps_cons_nonsep c t h]

theorem movieTail_cons_nonsep (c : Char) (t : List Char) (h : isSepCh c = false) :
    movieTail (c :: t) = if c = '(' then matchYear t else matchYear (c :: t) := by
  unfold movieTail
  rw [dropSeps_cons_nonsep c t h]
  by_cases hc : c = '('
  · subst hc
    simp
  · rw [if_neg hc]
    have : (match c :: t with
        | '(' :: rest => matchYear rest
        | ys => matchYear ys) = matchYear (c :: t) := by
      cases hcc : c <;> simp_all <;> rfl
    exact this

theorem tvTail1_sepRun_append (a t : List Char) (h : ∀ c ∈ a, isSepCh c = true) :
    tvTail1 (a ++ t) = tvTail1 t := by
  induction a with
  | nil => rfl
  | cons c rest ih =>
    rw [List.cons_append, tvTail1_cons_sep _ _ (h c (by simp))]
    exact ih (fun x hx => h x (by simp [hx]))

theorem tvTail2_sepRun_append (a t : List Char) (h : ∀ c ∈ a, isSepCh c = true) :
    tvTail2 (a ++ t) = tvTail2 t := by
  induction a with
  | nil => rfl
  | cons c rest ih =>
    rw [List.cons_append, tvTail2_cons_sep _ _ (h c (by simp))]
    exact ih (fun x hx => h x (by simp [hx]))

theorem movieTail_sepRun_append (a t : List Char) (h : ∀ c ∈ a, isSepCh c = true) :
    movieTail (a ++ t) = movieTail t := by
  induction a with
  | nil => rfl
  | cons c rest ih =>
    rw [List.cons_append, movieTail_cons_sep _ _ (h c (by simp))]
    exact ih (fun x hx => h x (by simp [hx]))

/-- The scan fails when the tail matcher fails at every later position. -/
theorem scanWith_none_of {α : Type} (tail : List Char → Option α) (cs : List Char)
    (hf : ∀ n, tail (cs.drop (n + 1)) = none) :
    ∀ acc, scanWith tail acc cs = none := by
  induction cs with
  | nil => intro _; rfl
  | cons c rest ih =>
    intro acc
    have h0 : tail rest = none := by simpa using hf 0
    have ih2 := ih (fun n => by simpa using hf (n + 1))
    by_cases hd : dotOk c = true <;> simp [scanWith, hd, h0] <;> exact ih2 _

/-- One step of `scanWith`. -/
theorem scanWith_cons {α : Type} (tail : List Char → Option α) (acc : List Char)
    (c : Char) (rest : List Char) :
    scanWith tail acc (c :: rest) =
      if dotOk c = true then
        match tail rest with
        | some r => some ((c :: acc).reverse, r)
        | none => scanWith tail (c :: acc) rest
      else scanWith tail [] rest := rfl

/-- The scan succeeds at the end of a title block all of whose proper
suffixes fail the tail matcher, capturing exactly that block. -/
theorem scanWith_append_succ {α : Type} (tail : List Char → Option α)
    (acc pre post : List Char) (r : α)
    (hne : pre ≠ [])
    (hdot : ∀ c ∈ pre, dotOk c = true)
    (hfail : ∀ n, n + 1 < pre.length → tail (pre.drop (n + 1) ++ post) = none)
    (hsucc : tail post = some r) :
    scanWith tail acc (pre ++ post) = some (acc.reverse ++ pre, r) := by
  induction pre generalizing acc with
  | nil => exact absurd rfl hne
  | cons c rest ih =>
    rw [List.cons_append]
    have hd := hdot c (by simp)
    cases rest with
    | nil =>
      simp [scanWith, hd, hsucc]
    | cons c2 rest2 =>
      have h0 : tail (c2 :: rest2 ++ post) = none := by
        simpa using hfail 0 (by simp)
      have ih2 := ih (c :: acc) (by simp) (fun x hx => hdot x (by simp [hx]))
        (fun n hn => by simpa using hfail (n + 1) (by simp at hn ⊢; omega))
      simp only [List.cons_append] at ih2
      rw [scanWith_cons, if_pos hd, h0]
      show scanWith tail (c :: acc) (c2 :: (rest2 ++ post)) =
        some (acc.reverse ++ c :: c2 :: rest2, r)
      rw [ih2]
      simp

end Mnamer

namespace Mnamer

/-! ### Token predicates and confinement of matches to the title block -/

/-- The shape `(\\d{1,2})M(\\d{2})` realisable at the head of a list (either
the two-digit-season or the one-digit-season alternative). -/
def mseWithin (mark : Char → Bool) : List Char → Bool
  | d1 :: d2 :: e :: f1 :: f2 :: _ =>
    (isDigitCh d1 && isDigitCh d2 && (mark e && isDigitCh f1 && isDigitCh f2)) ||
    (isDigitCh d1 && (mark d2 && isDigitCh e && isDigitCh f1))
  | [d1, d2, e, f1] => isDigitCh d1 && (mark d2 && isDigitCh e && isDigitCh f1)
  | _ => false

/-- A complete `[sS]\\d{1,2}[eE]\\d{2}` token at the head. -/
def seAt : List Char → Bool
  | c :: rest => isSCh c && mseWithin isECh rest
  | [] => false

/-- A complete `\\d{1,2}[xX]\\d{2}` token at the head. -/
def xAt (cs : List Char) : Bool := mseWithin isXCh cs

/-- A complete `(19|20)\\d{2}` token at the head. -/
def yearAt : List Char → Bool
  | c1 :: c2 :: d1 :: d2 :: _ =>
    ((c1 = '1' && c2 = '9') || (c1 = '2' && c2 = '0')) && isDigitCh d1 && isDigitCh d2
  | _ => false

/-- A token somewhere in the list (at any start position). -/
def hasTok (f : List Char → Bool) : List Char → Bool
  | [] => f []
  | c :: rest => f (c :: rest) || hasTok f rest

theorem hasTok_here (f : List Char → Bool) (l : List Char) (h : f l = true) :
    hasTok f l = true := by
  cases l <;> simp [hasTok, h]

theorem hasTok_cons_false (f : List Char → Bool) (c : Char) (rest : List Char)
    (h : hasTok f (c :: rest) = false) :
    f (c :: rest) = false ∧ hasTok f rest = false := by
  simpa [hasTok] using h

theorem matchSeasonMark_head_none (mark : Char → Bool) (c0 : Char) (t : List Char)
    (h : isDigitCh c0 = false) : matchSeasonMark mark (c0 :: t) = none := by
  simp [matchSeasonMark, h]

/-- `matchSeasonMark` succeeds exactly when the season/episode shape is
present at the head. -/
theorem matchSeasonMark_isSome (mark : Char → Bool) (l : List Char) :
    (matchSeasonMark mark l).isSome = mseWithin mark l := by
  cases l with
  | nil => rfl
  | cons d1 t1 =>
    by_cases h1 : isDigitCh d1 = true
    · cases t1 with
      | nil => simp [matchSeasonMark, mseWithin, h1]
      | cons d2 t2 =>
        cases t2 with
        | nil =>
          by_cases h2 : isDigitCh d2 = true <;>
            simp [matchSeasonMark, matchMarkEp, mseWithin, h1, h2]
        | cons e t3 =>
          cases t3 with
          | nil =>
            by_cases h2 : isDigitCh d2 = true <;>
              simp [matchSeasonMark, matchMarkEp, mseWithin, h1, h2]
          | cons f1 t4 =>
            cases t4 with
            | nil =>
              by_cases h2 : isDigitCh d2 = true <;>
                by_cases hC2 : (mark d2 && isDigitCh e && isDigitCh f1) = true <;>
                  simp [matchSeasonMark, matchMarkEp, mseWithin, h1, h2, hC2]
            | cons f2 t5 =>
              by_cases h2 : isDigitCh d2 = true <;>
                by_cases hC1 : (mark e && isDigitCh f1 && isDigitCh f2) = true <;>
                  by_cases hC2 : (mark d2 && isDigitCh e && isDigitCh f1) = true <;>
                    simp [matchSeasonMark, matchMarkEp, mseWithin, h1, h2, hC1, hC2]
    · have h1f : isDigitCh d1 = false := by simpa using h1
      rw [matchSeasonMark_head_none mark d1 t1 h1f]
      cases t1 with
      | nil => rfl
      | cons d2 t2 =>
        cases t2 with
        | nil => rfl
        | cons e t3 =>
          cases t3 with
          | nil => rfl
          | cons f1 t4 =>
            cases t4 with
            | nil => simp [mseWithin, h1f]
            | cons f2 t5 => simp [mseWithin, h1f]
  
end Mnamer

namespace Mnamer

theorem mseWithin_head_not_digit (mark : Char → Bool) (c : Char) (t : List Char)
    (h : isDigitCh c = false) : mseWithin mark (c :: t) = false := by
  cases t with
  | nil => rfl
  | cons a t1 =>
    cases t1 with
    | nil => rfl
    | cons b t2 =>
      cases t2 with
      | nil => rfl
      | cons d t3 =>
        cases t3 with
        | nil => simp [mseWithin, h]
        | cons e t4 => simp [mseWithin, h]

theorem mseWithin_second_bad (mark : Char → Bool) (x1 c0 : Char) (t : List Char)
    (hd : isDigitCh c0 = false) (hm : mark c0 = false) :
    mseWithin mark (x1 :: c0 :: t) = false := by
  cases t with
  | nil => rfl
  | cons a t1 =>
    cases t1 with
    | nil => rfl
    | cons b t2 =>
      cases t2 with
      | nil => simp [mseWithin, hm]
      | cons d t3 => simp [mseWithin, hd, hm]

theorem mseWithin_third_bad (mark : Char → Bool) (x1 x2 c0 : Char) (t : List Char)
    (hd : isDigitCh c0 = false) (hm : mark c0 = false) :
    mseWithin mark (x1 :: x2 :: c0 :: t) = false := by
  cases t with
  | nil => rfl
  | cons a t1 =>
    cases t1 with
    | nil => simp [mseWithin, hd]
    | cons b t2 => simp [mseWithin, hd, hm]

theorem mseWithin_fourth_bad (mark : Char → Bool) (x1 x2 x3 c0 : Char) (t : List Char)
    (hd : isDigitCh c0 = false) :
    mseWithin mark (x1 :: x2 :: x3 :: c0 :: t) = false := by
  cases t with
  | nil => simp [mseWithin, hd]
  | cons a t1 => simp [mseWithin, hd]

/-- A season/episode shape that matches at the head of `a ++ k` lies entirely
within `a` when the first character of `k` can be neither a digit nor a
marker letter. -/
theorem mseWithin_append_confined (mark : Char → Bool) (a k : List Char)
    (hk : ∀ c0, k.head? = some c0 → isDigitCh c0 = false ∧ mark c0 = false)
    (h : mseWithin mark (a ++ k) = true) : mseWithin mark a = true := by
  cases a with
  | nil =>
    exfalso
    cases hk0 : k with
    | nil =>
      subst hk0
      simp [mseWithin] at h
    | cons c0 t =>
      subst hk0
      rw [List.nil_append, mseWithin_head_not_digit mark c0 t (hk c0 rfl).1] at h
      exact Bool.noConfusion h
  | cons x1 a1 =>
    cases a1 with
    | nil =>
      exfalso
      cases hk0 : k with
      | nil =>
        subst hk0
        simp [mseWithin] at h
      | cons c0 t =>
        subst hk0
        rw [List.cons_append, List.nil_append,
          mseWithin_second_bad mark x1 c0 t (hk c0 rfl).1 (hk c0 rfl).2] at h
        exact Bool.noConfusion h
    | cons x2 a2 =>
      cases a2 with
      | nil =>
        exfalso
        cases hk0 : k with
        | nil =>
          subst hk0
          simp [mseWithin] at h
        | cons c0 t =>
          subst hk0
          simp only [List.cons_append, List.nil_append] at h
          rw [mseWithin_third_bad mark x1 x2 c0 t (hk c0 rfl).1 (hk c0 rfl).2] at h
          exact Bool.noConfusion h
      | cons x3 a3 =>
        cases a3 with
        | nil =>
          exfalso
          cases hk0 : k with
          | nil =>
            subst hk0
            simp [mseWithin] at h
          | cons c0 t =>
            subst hk0
            simp only [List.cons_append, List.nil_append] at h
            rw [mseWithin_fourth_bad mark x1 x2 x3 c0 t (hk c0 rfl).1] at h
            exact Bool.noConfusion h
        | cons x4 a4 =>
          cases a4 with
          | nil =>
            cases hk0 : k with
            | nil =>
              subst hk0
              simpa using h
            | cons c0 t =>
              subst hk0
              have hd := (hk c0 rfl).1
              simp only [List.cons_append, List.nil_append] at h
              simp only [mseWithin, hd, Bool.and_false, Bool.false_and,
                Bool.false_or] at h
              simpa [mseWithin] using h
          | cons x5 a5 =>
            exact h

/-- `matchYear` succeeds exactly when the year shape is at the head. -/
theorem matchYear_isSome (l : List Char) : (matchYear l).isSome = yearAt l := by
  cases l with
  | nil => rfl
  | cons c1 t1 =>
    cases t1 with
    | nil => rfl
    | cons c2 t2 =>
      cases t2 with
      | nil => rfl
      | cons d1 t3 =>
        cases t3 with
        | nil => rfl
        | cons d2 t4 =>
          by_cases hC : (((c1 = '1' && c2 = '9') || (c1 = '2' && c2 = '0')) &&
              isDigitCh d1 && isDigitCh d2) = true <;>
            simp [matchYear, yearAt, hC]

theorem yearAt_head_not_digit (c0 : Char) (t : List Char) (hd : isDigitCh c0 = false) :
    yearAt (c0 :: t) = false := by
  cases t with
  | nil => rfl
  | cons a t1 =>
    cases t1 with
    | nil => rfl
    | cons b t2 =>
      cases t2 with
      | nil => rfl
      | cons d t3 =>
        have h1 : ¬ c0 = '1' := by
          intro hh
          subst hh
          exact absurd hd (by decide)
        have h2 : ¬ c0 = '2' := by
          intro hh
          subst hh
          exact absurd hd (by decide)
        simp [yearAt, h1, h2]

theorem yearAt_second_not_digit (x1 c0 : Char) (t : List Char)
    (hd : isDigitCh c0 = false) : yearAt (x1 :: c0 :: t) = false := by
  cases t with
  | nil => rfl
  | cons a t1 =>
    cases t1 with
    | nil => rfl
    | cons b t2 =>
      have h1 : ¬ c0 = '9' := by
        intro hh
        subst hh
        exact absurd hd (by decide)
      have h2 : ¬ c0 = '0' := by
        intro hh
        subst hh
        exact absurd hd (by decide)
      simp [yearAt, h1, h2]

theorem yearAt_third_not_digit (x1 x2 c0 : Char) (t : List Char)
    (hd : isDigitCh c0 = false) : yearAt (x1 :: x2 :: c0 :: t) = false := by
  cases t with
  | nil => rfl
  | cons a t1 => simp [yearAt, hd]

theorem yearAt_fourth_not_digit (x1 x2 x3 c0 : Char) (t : List Char)
    (hd : isDigitCh c0 = false) : yearAt (x1 :: x2 :: x3 :: c0 :: t) = false := by
  simp [yearAt, hd]

/-- A year token matching at the head of `a ++ k` lies within `a` when the
first character of `k` is not a digit. -/
theorem yearAt_append_confined (a k : List Char)
    (hk : ∀ c0, k.head? = some c0 → isDigitCh c0 = false)
    (h : yearAt (a ++ k) = true) : yearAt a = true := by
  cases a with
  | nil =>
    exfalso
    cases hk0 : k with
    | nil =>
      subst hk0
      simp [yearAt] at h
    | cons c0 t =>
      subst hk0
      rw [List.nil_append, yearAt_head_not_digit c0 t (hk c0 rfl)] at h
      exact Bool.noConfusion h
  | cons x1 a1 =>
    cases a1 with
    | nil =>
      exfalso
      cases hk0 : k with
      | nil =>
        subst hk0
        simp [yearAt] at h
      | cons c0 t =>
        subst hk0
        simp only [List.cons_append, List.nil_append] at h
        rw [yearAt_second_not_digit x1 c0 t (hk c0 rfl)] at h
        exact Bool.noConfusion h
    | cons x2 a2 =>
      cases a2 with
      | nil =>
        exfalso
        cases hk0 : k with
        | nil =>
          subst hk0
          simp [yearAt] at h
        | cons c0 t =>
          subst hk0
          simp only [List.cons_append, List.nil_append] at h
          rw [yearAt_third_not_digit x1 x2 c0 t (hk c0 rfl)] at h
          exact Bool.noConfusion h
      | cons x3 a3 =>
        cases a3 with
        | nil =>
          exfalso
          cases hk0 : k with
          | nil =>
            subst hk0
            simp [yearAt] at h
          | cons c0 t =>
            subst hk0
            simp only [List.cons_append, List.nil_append] at h
            rw [yearAt_fourth_not_digit x1 x2 x3 c0 t (hk c0 rfl)] at h
            exact Bool.noConfusion h
        | cons x4 a4 =>
          exact h

end Mnamer

namespace Mnamer

/-! ### Failure of the tail matchers inside a token-free title block -/

/-- The last character exists and is not a separator. -/
def endsNonSep : List Char → Bool
  | [] => false
  | [c] => !isSepCh c
  | _ :: rest => endsNonSep rest

theorem endsNonSep_cons_cons (c c2 : Char) (rest : List Char) :
    endsNonSep (c :: c2 :: rest) = endsNonSep (c2 :: rest) := rfl

theorem endsNonSep_drop (l : List Char) (t : Nat) (h : t < l.length) :
    endsNonSep (l.drop t) = endsNonSep l := by
  induction l generalizing t with
  | nil => simp at h
  | cons c rest ih =>
    cases t with
    | zero => rfl
    | succ t2 =>
      cases rest with
      | nil => simp at h
      | cons c2 rest2 =>
        rw [List.drop_succ_cons, ih t2 (by simpa using h), endsNonSep_cons_cons]

theorem hasTok_drop (f : List Char → Bool) (l : List Char)
    (h : hasTok f l = false) : ∀ t, hasTok f (l.drop t) = false := by
  induction l with
  | nil => intro t; simpa using h
  | cons c rest ih =>
    intro t
    cases t with
    | zero => exact h
    | succ t2 => exact ih (hasTok_cons_false f c rest h).2 t2

theorem sepCh_not_digit (c : Char) (h : isSepCh c = true) : isDigitCh c = false := by
  unfold isSepCh at h
  rcases Bool.or_eq_true _ _ |>.mp h with h1 | h1
  · rcases Bool.or_eq_true _ _ |>.mp h1 with h2 | h2
    · rcases Bool.or_eq_true _ _ |>.mp h2 with h3 | h3
      · rw [decide_eq_true_eq] at h3; subst h3; decide
      · rw [decide_eq_true_eq] at h3; subst h3; decide
    · rw [decide_eq_true_eq] at h2; subst h2; decide
  · rw [decide_eq_true_eq] at h1; subst h1; decide

theorem sepCh_not_e (c : Char) (h : isSepCh c = true) : isECh c = false := by
  unfold isSepCh at h
  rcases Bool.or_eq_true _ _ |>.mp h with h1 | h1
  · rcases Bool.or_eq_true _ _ |>.mp h1 with h2 | h2
    · rcases Bool.or_eq_true _ _ |>.mp h2 with h3 | h3
      · rw [decide_eq_true_eq] at h3; subst h3; decide
      · rw [decide_eq_true_eq] at h3; subst h3; decide
    · rw [decide_eq_true_eq] at h2; subst h2; decide
  · rw [decide_eq_true_eq] at h1; subst h1; decide

theorem sepCh_not_x (c : Char) (h : isSepCh c = true) : isXCh c = false := by
  unfold isSepCh at h
  rcases Bool.or_eq_true _ _ |>.mp h with h1 | h1
  · rcases Bool.or_eq_true _ _ |>.mp h1 with h2 | h2
    · rcases Bool.or_eq_true _ _ |>.mp h2 with h3 | h3
      · rw [decide_eq_true_eq] at h3; subst h3; decide
      · rw [decide_eq_true_eq] at h3; subst h3; decide
    · rw [decide_eq_true_eq] at h2; subst h2; decide
  · rw [decide_eq_true_eq] at h1; subst h1; decide

theorem digit_not_sep (c : Char) (h : isDigitCh c = true) : isSepCh c = false := by
  unfold isDigitCh at h
  simp only [Bool.and_eq_true, decide_eq_true_eq] at h
  unfold isSepCh
  have h1 : ¬ c = '.' := by intro hh; subst hh; exact absurd h (by decide)
  have h2 : ¬ c = ' ' := by intro hh; subst hh; exact absurd h (by decide)
  have h3 : ¬ c = '_' := by intro hh; subst hh; exact absurd h (by decide)
  have h4 : ¬ c = '-' := by intro hh; subst hh; exact absurd h (by decide)
  simp [h1, h2, h3, h4]

theorem digit_not_s (c : Char) (h : isDigitCh c = true) : isSCh c = false := by
  unfold isDigitCh at h
  simp only [Bool.and_eq_true, decide_eq_true_eq] at h
  unfold isSCh
  have h1 : ¬ c = 's' := by intro hh; subst hh; exact absurd h (by decide)
  have h2 : ¬ c = 'S' := by intro hh; subst hh; exact absurd h (by decide)
  simp [h1, h2]

/-- `tvRegex1`'s tail fails everywhere inside a block that ends in a
non-separator, contains no complete `SxxEyy` token, and is followed by a
character that is neither a digit nor `e`/`E`. -/
theorem tvTail1_fail_chunk (s k : List Char)
    (hlast : endsNonSep s = true)
    (hse : hasTok seAt s = false)
    (hk : ∀ c0, k.head? = some c0 → isDigitCh c0 = false ∧ isECh c0 = false) :
    tvTail1 (s ++ k) = none := by
  induction s with
  | nil => simp [endsNonSep] at hlast
  | cons c rest ih =>
    cases rest with
    | nil =>
      have hcs : isSepCh c = false := by
        have : (!isSepCh c) = true := hlast
        simpa using this
      rw [List.cons_append, List.nil_append, tvTail1_cons_nonsep _ _ hcs]
      by_cases hS : isSCh c = true
      · rw [if_pos hS]
        cases hk0 : k with
        | nil => rfl
        | cons c0 t =>
          exact matchSeasonMark_head_none _ c0 t (hk c0 (by rw [hk0]; rfl)).1
      · rw [if_neg hS]
    | cons c2 rest2 =>
      by_cases hcs : isSepCh c = true
      · rw [List.cons_append, tvTail1_cons_sep _ _ hcs]
        exact ih hlast (hasTok_cons_false _ _ _ hse).2
      · have hcs2 : isSepCh c = false := by simpa using hcs
        rw [List.cons_append, tvTail1_cons_nonsep _ _ hcs2]
        by_cases hS : isSCh c = true
        · rw [if_pos hS]
          cases hm : matchSeasonMark isECh (c2 :: rest2 ++ k) with
          | none => rfl
          | some v =>
            exfalso
            have h1 : mseWithin isECh ((c2 :: rest2) ++ k) = true := by
              rw [← matchSeasonMark_isSome]
              simp only [List.cons_append] at hm ⊢
              rw [hm]
              rfl
            have h2 : mseWithin isECh (c2 :: rest2) = true :=
              mseWithin_append_confined isECh (c2 :: rest2) k hk h1
            have h3 : seAt (c :: c2 :: rest2) = true := by simp [seAt, hS, h2]
            have h4 := (hasTok_cons_false seAt c (c2 :: rest2) hse).1
            rw [h3] at h4
            exact Bool.noConfusion h4
        · rw [if_neg hS]

/-- `tvRegex2`'s tail fails everywhere inside a block that ends in a
non-separator, contains no complete `NxNN` token, and is followed by a
character that is neither a digit nor `x`/`X`. -/
theorem tvTail2_fail_chunk (s k : List Char)
    (hlast : endsNonSep s = true)
    (hx : hasTok xAt s = false)
    (hk : ∀ c0, k.head? = some c0 → isDigitCh c0 = false ∧ isXCh c0 = false) :
    tvTail2 (s ++ k) = none := by
  induction s with
  | nil => simp [endsNonSep] at hlast
  | cons c rest ih =>
    by_cases hcs : isSepCh c = true
    · cases rest with
      | nil =>
        exfalso
        have : (!isSepCh c) = true := hlast
        rw [hcs] at this
        exact Bool.noConfusion this
      | cons c2 rest2 =>
        rw [List.cons_append, tvTail2_cons_sep _ _ hcs]
        exact ih hlast (hasTok_cons_false _ _ _ hx).2
    · have hcs2 : isSepCh c = false := by simpa using hcs
      rw [List.cons_append, tvTail2_cons_nonsep _ _ hcs2]
      cases hm : matchSeasonMark isXCh (c :: (rest ++ k)) with
      | none => rfl
      | some v =>
        exfalso
        have h1 : mseWithin isXCh ((c :: rest) ++ k) = true := by
          rw [← matchSeasonMark_isSome]
          simp only [List.cons_append] at hm ⊢
          rw [hm]
          rfl
        have h2 : xAt (c :: rest) = true :=
          mseWithin_append_confined isXCh (c :: rest) k hk h1
        have h4 := (hasTok_cons_false xAt c rest hx).1
        rw [h2] at h4
        exact Bool.noConfusion h4

/-- `movieRegex`'s tail fails everywhere inside a block that ends in a
non-separator, contains no complete `(19|20)\d{2}` token, and is followed by
a non-digit. -/
theorem movieTail_fail_chunk (s k : List Char)
    (hlast : endsNonSep s = true)
    (hy : hasTok yearAt s = false)
    (hk : ∀ c0, k.head? = some c0 → isDigitCh c0 = false) :
    movieTail (s ++ k) = none := by
  induction s with
  | nil => simp [endsNonSep] at hlast
  | cons c rest ih =>
    by_cases hcs : isSepCh c = true
    · cases rest with
      | nil =>
        exfalso
        have : (!isSepCh c) = true := hlast
        rw [hcs] at this
        exact Bool.noConfusion this
      | cons c2 rest2 =>
        rw [List.cons_append, movieTail_cons_sep _ _ hcs]
        exact ih hlast (hasTok_cons_false _ _ _ hy).2
    · have hcs2 : isSepCh c = false := by simpa using hcs
      rw [List.cons_append, movieTail_cons_nonsep _ _ hcs2]
      by_cases hpar : c = '('
      · rw [if_pos hpar]
        cases hm : matchYear (rest ++ k) with
        | none => rfl
        | some v =>
          exfalso
          have h1 : yearAt (rest ++ k) = true := by
            rw [← matchYear_isSome]
            simp [hm]
          have h2 : yearAt rest = true := yearAt_append_confined rest k
            (fun c0 hc0 => (hk c0 hc0)) h1
          have h3 := (hasTok_cons_false yearAt c rest hy).2
          rw [hasTok_here yearAt rest h2] at h3
          exact Bool.noConfusion h3
      · rw [if_neg hpar]
        cases hm : matchYear (c :: (rest ++ k)) with
        | none => rfl
        | some v =>
          exfalso
          have h1 : yearAt ((c :: rest) ++ k) = true := by
            rw [← matchYear_isSome]
            simp only [List.cons_append] at hm ⊢
            rw [hm]
            rfl
          have h2 : yearAt (c :: rest) = true := yearAt_append_confined (c :: rest) k
            (fun c0 hc0 => (hk c0 hc0)) h1
          have h4 := (hasTok_cons_false yearAt c rest hy).1
          rw [h2] at h4
          exact Bool.noConfusion h4

end Mnamer

namespace Mnamer

/-! ### Name/extension extraction on shaped inputs -/

theorem dropWhile_eq_self_of_all (p : Char → Bool) (l : List Char)
    (h : ∀ c ∈ l, p c = false) : l.dropWhile p = l := by
  cases l with
  | nil => rfl
  | cons c rest => simp [List.dropWhile_cons, h c (by simp)]

theorem takeWhile_all (p : Char → Bool) (l : List Char)
    (h : ∀ c ∈ l, p c = true) : l.takeWhile p = l := by
  induction l with
  | nil => rfl
  | cons c rest ih =>
    rw [List.takeWhile_cons, h c (by simp)]
    rw [ih (fun x hx => h x (by simp [hx]))]
    simp

theorem takeWhile_append_stop (p : Char → Bool) (a : List Char) (x : Char) (b : List Char)
    (ha : ∀ c ∈ a, p c = true) (hx : p x = false) :
    (a ++ x :: b).takeWhile p = a := by
  induction a with
  | nil => simp [List.takeWhile_cons, hx]
  | cons c rest ih =>
    rw [List.cons_append, List.takeWhile_cons, ha c (by simp)]
    rw [ih (fun y hy => ha y (by simp [hy]))]
    simp

theorem jsBasenameL_no_slash (cs : List Char) (h : ∀ c ∈ cs, ¬ c = '/') :
    jsBasenameL cs = cs := by
  unfold jsBasenameL
  rw [dropWhile_eq_self_of_all _ _ (fun c hc => by
    simp [h c (List.mem_reverse.mp hc)])]
  rw [takeWhile_all _ _ (fun c hc => by simp [h c (List.mem_reverse.mp hc)])]
  exact List.reverse_reverse cs

theorem strExt (a b : String) (h : a.data = b.data) : a = b := by
  cases a
  cases b
  exact congrArg String.mk h

theorem jsExtnameL_spec (front w : List Char)
    (hf : front ≠ []) (hfs : ∀ c ∈ front, ¬ c = '/')
    (hw : w ≠ []) (hwd : ∀ c ∈ w, ¬ c = '.') (hws : ∀ c ∈ w, ¬ c = '/') :
    jsExtnameL (front ++ '.' :: w) = '.' :: w := by
  have hb : jsBasenameL (front ++ '.' :: w) = front ++ '.' :: w := by
    apply jsBasenameL_no_slash
    intro c hc
    rcases List.mem_append.mp hc with h1 | h1
    · exact hfs c h1
    · rcases List.mem_cons.mp h1 with h2 | h2
      · subst h2; decide
      · exact hws c h2
  have hafter : (front ++ '.' :: w).reverse.takeWhile (fun c => !(c = '.')) = w.reverse := by
    rw [List.reverse_append, List.reverse_cons, List.append_assoc]
    exact takeWhile_append_stop _ _ '.' _
      (fun c hc => by simp [hwd c (List.mem_reverse.mp hc)]) (by simp)
  have hflen : 0 < front.length := List.length_pos.mpr hf
  have hwlen : 0 < w.length := List.length_pos.mpr hw
  have hlen : (front ++ '.' :: w).length = front.length + (w.length + 1) := by
    simp [List.length_append]
  simp only [jsExtnameL, hb, hafter]
  rw [if_neg (by simp [hlen]; omega)]
  rw [if_neg (by simp [hlen]; omega)]
  rw [if_neg (by
    intro hcontra
    have := congrArg List.length hcontra
    simp [hlen] at this
    omega)]
  rw [show (front ++ '.' :: w).length - w.reverse.length - 1 = front.length from by
    simp [hlen]
    omega]
  exact List.drop_left _ _

theorem jsExtnameL_noext (front : List Char) (hfs : ∀ c ∈ front, ¬ c = '/')
    (hfd : ∀ c ∈ front, ¬ c = '.') :
    jsExtnameL front = [] := by
  have hb : jsBasenameL front = front := jsBasenameL_no_slash front hfs
  have hafter : front.reverse.takeWhile (fun c => !(c = '.')) = front.reverse :=
    takeWhile_all _ _ (fun c hc => by simp [hfd c (List.mem_reverse.mp hc)])
  simp only [jsExtnameL, hb, hafter]
  rw [if_pos (by simp)]

theorem jsBasenameExtL_spec (front w : List Char)
    (hf : front ≠ []) (hfs : ∀ c ∈ front, ¬ c = '/')
    (hws : ∀ c ∈ w, ¬ c = '/') :
    jsBasenameExtL (front ++ '.' :: w) ('.' :: w) = front := by
  have hb : jsBasenameL (front ++ '.' :: w) = front ++ '.' :: w := by
    apply jsBasenameL_no_slash
    intro c hc
    rcases List.mem_append.mp hc with h1 | h1
    · exact hfs c h1
    · rcases List.mem_cons.mp h1 with h2 | h2
      · subst h2; decide
      · exact hws c h2
  have hflen : 0 < front.length := List.length_pos.mpr hf
  simp only [jsBasenameExtL, hb]
  rw [if_pos ?hcond]
  case hcond =>
    refine ⟨by simp, ?_, ?_⟩
    · intro hcontra
      have hll := congrArg List.length hcontra
      rw [List.length_append] at hll
      omega
    · rw [List.isSuffixOf_iff_suffix]
      exact List.suffix_append front ('.' :: w)
  rw [show (front ++ '.' :: w).length - ('.' :: w).length = front.length from by
    simp [List.length_append]]
  exact List.take_left _ _

theorem jsBasenameExtL_noext (front : List Char) (hfs : ∀ c ∈ front, ¬ c = '/') :
    jsBasenameExtL front [] = front := by
  have hb : jsBasenameL front = front := jsBasenameL_no_slash front hfs
  simp only [jsBasenameExtL, hb]
  rw [if_neg (by simp)]

end Mnamer

namespace Mnamer

/-! ### Character-class facts and tail computations for the TV shapes -/

theorem sCh_not_sep (c : Char) (h : isSCh c = true) : isSepCh c = false := by
  rcases Bool.or_eq_true _ _ |>.mp h with h1 | h1 <;>
    (rw [decide_eq_true_eq] at h1; subst h1; decide)

theorem xCh_not_sep (c : Char) (h : isXCh c = true) : isSepCh c = false := by
  rcases Bool.or_eq_true _ _ |>.mp h with h1 | h1 <;>
    (rw [decide_eq_true_eq] at h1; subst h1; decide)

theorem eCh_not_digit (c : Char) (h : isECh c = true) : isDigitCh c = false := by
  rcases Bool.or_eq_true _ _ |>.mp h with h1 | h1 <;>
    (rw [decide_eq_true_eq] at h1; subst h1; decide)

theorem xCh_not_digit (c : Char) (h : isXCh c = true) : isDigitCh c = false := by
  rcases Bool.or_eq_true _ _ |>.mp h with h1 | h1 <;>
    (rw [decide_eq_true_eq] at h1; subst h1; decide)

theorem xCh_not_s (c : Char) (h : isXCh c = true) : isSCh c = false := by
  rcases Bool.or_eq_true _ _ |>.mp h with h1 | h1 <;>
    (rw [decide_eq_true_eq] at h1; subst h1; decide)

theorem sepCh_not_slash (c : Char) (h : isSepCh c = true) : ¬ c = '/' := by
  intro hh
  subst hh
  exact Bool.noConfusion ((by decide : isSepCh '/' = false).symm.trans h)

theorem sCh_not_slash (c : Char) (h : isSCh c = true) : ¬ c = '/' := by
  intro hh
  subst hh
  exact Bool.noConfusion ((by decide : isSCh '/' = false).symm.trans h)

theorem eCh_not_slash (c : Char) (h : isECh c = true) : ¬ c = '/' := by
  intro hh
  subst hh
  exact Bool.noConfusion ((by decide : isECh '/' = false).symm.trans h)

theorem xCh_not_slash (c : Char) (h : isXCh c = true) : ¬ c = '/' := by
  intro hh
  subst hh
  exact Bool.noConfusion ((by decide : isXCh '/' = false).symm.trans h)

theorem digit_not_slash (c : Char) (h : isDigitCh c = true) : ¬ c = '/' := by
  intro hh
  subst hh
  exact Bool.noConfusion ((by decide : isDigitCh '/' = false).symm.trans h)

theorem digit_not_dot (c : Char) (h : isDigitCh c = true) : ¬ c = '.' := by
  intro hh
  subst hh
  exact Bool.noConfusion ((by decide : isDigitCh '.' = false).symm.trans h)

theorem mseWithin_no_digits (mark : Char → Bool) (l : List Char)
    (h : ∀ c ∈ l, isDigitCh c = false) : mseWithin mark l = false := by
  cases l with
  | nil => rfl
  | cons c t => exact mseWithin_head_not_digit mark c t (h c (by simp))

theorem hasTok_seAt_no_digits (l : List Char)
    (h : ∀ c ∈ l, isDigitCh c = false) : hasTok seAt l = false := by
  induction l with
  | nil => rfl
  | cons c rest ih =>
    have h1 : mseWithin isECh rest = false :=
      mseWithin_no_digits _ _ (fun x hx => h x (by simp [hx]))
    simp [hasTok, seAt, h1, ih (fun x hx => h x (by simp [hx]))]

theorem hasTok_xAt_no_digits (l : List Char)
    (h : ∀ c ∈ l, isDigitCh c = false) : hasTok xAt l = false := by
  induction l with
  | nil => rfl
  | cons c rest ih =>
    have h1 : mseWithin isXCh (c :: rest) = false :=
      mseWithin_no_digits _ _ h
    simp [hasTok, xAt, h1, ih (fun x hx => h x (by simp [hx]))]

theorem hasTok_yearAt_no_digits (l : List Char)
    (h : ∀ c ∈ l, isDigitCh c = false) : hasTok yearAt l = false := by
  induction l with
  | nil => rfl
  | cons c rest ih =>
    have h1 : yearAt (c :: rest) = false :=
      yearAt_head_not_digit c rest (h c (by simp))
    simp [hasTok, h1, ih (fun x hx => h x (by simp [hx]))]

theorem matchSeasonMark_one_digit (mark : Char → Bool) (d1 e ε1 ε2 : Char) (t : List Char)
    (h1 : isDigitCh d1 = true) (he : isDigitCh e = false) (hm : mark e = true)
    (g1 : isDigitCh ε1 = true) (g2 : isDigitCh ε2 = true) :
    matchSeasonMark mark (d1 :: e :: ε1 :: ε2 :: t) = some ([d1], [ε1, ε2]) := by
  simp [matchSeasonMark, matchMarkEp, h1, he, hm, g1, g2]

theorem matchSeasonMark_two_digit (mark : Char → Bool) (d1 d2 e ε1 ε2 : Char) (t : List Char)
    (h1 : isDigitCh d1 = true) (h2 : isDigitCh d2 = true)
    (hm : mark e = true) (g1 : isDigitCh ε1 = true) (g2 : isDigitCh ε2 = true) :
    matchSeasonMark mark (d1 :: d2 :: e :: ε1 :: ε2 :: t) = some ([d1, d2], [ε1, ε2]) := by
  simp [matchSeasonMark, matchMarkEp, h1, h2, hm, g1, g2]

theorem tvTail1_cons_notS (c : Char) (t : List Char)
    (hsep : isSepCh c = false) (hS : isSCh c = false) : tvTail1 (c :: t) = none := by
  rw [tvTail1_cons_nonsep _ _ hsep, if_neg (by simp [hS])]

theorem tvTail1_cons_digit (c : Char) (t : List Char) (hd : isDigitCh c = true) :
    tvTail1 (c :: t) = none :=
  tvTail1_cons_notS c t (digit_not_sep c hd) (digit_not_s c hd)

end Mnamer

namespace Mnamer

/-- Digits of the season capture, from its two allowed shapes. -/
theorem seasonShape_all_digits (σd : List Char)
    (hσ : (∃ d1, σd = [d1] ∧ isDigitCh d1 = true) ∨
        (∃ d1 d2, σd = [d1, d2] ∧ isDigitCh d1 = true ∧ isDigitCh d2 = true)) :
    ∀ c ∈ σd, isDigitCh c = true := by
  rcases hσ with ⟨d1, hq, hd1⟩ | ⟨d1, d2, hq, hd1, hd2⟩ <;> subst hq <;> intro c hc
  · rw [List.mem_singleton.mp hc]
    exact hd1
  · rcases List.mem_cons.mp hc with h1 | h1
    · subst h1
      exact hd1
    · rw [List.mem_singleton.mp h1]
      exact hd2

/-- Core of C5 for the `SxxEyy` shape, at the character-list level. -/
theorem parse_tv1_core (pre sep σd εd extwd : List Char) (s e : Char)
    (hpre : pre ≠ [])
    (hpred : ∀ c ∈ pre, isDigitCh c = false)
    (hpredot : ∀ c ∈ pre, dotOk c = true)
    (hpresl : ∀ c ∈ pre, ¬ c = '/')
    (hlast : endsNonSep pre = true)
    (hsep : sep ≠ []) (hsepc : ∀ c ∈ sep, isSepCh c = true)
    (hs : isSCh s = true) (he : isECh e = true)
    (hσ : (∃ d1, σd = [d1] ∧ isDigitCh d1 = true) ∨
        (∃ d1 d2, σd = [d1, d2] ∧ isDigitCh d1 = true ∧ isDigitCh d2 = true))
    (hε : ∃ g1 g2, εd = [g1, g2] ∧ isDigitCh g1 = true ∧ isDigitCh g2 = true)
    (hext : extwd ≠ []) (hextc : ∀ c ∈ extwd, ¬ c = '.' ∧ ¬ c = '/') :
    parseFilename ⟨(pre ++ (sep ++ s :: (σd ++ e :: εd))) ++ '.' :: extwd⟩ =
      some { type := .tv, title := titleCase (cleanTitle ⟨pre⟩),
             season := some (jsParseIntL σd), episode := some (jsParseIntL εd),
             year := none, ext := ⟨'.' :: extwd⟩,
             originalName := ⟨pre ++ (sep ++ s :: (σd ++ e :: εd))⟩ } := by
  have hσall := seasonShape_all_digits σd hσ
  obtain ⟨g1, g2, hεq, hg1, hg2⟩ := hε
  have hεall : ∀ c ∈ εd, isDigitCh c = true := by
    subst hεq
    intro c hc
    rcases List.mem_cons.mp hc with h1 | h1
    · subst h1
      exact hg1
    · rw [List.mem_singleton.mp h1]
      exact hg2
  have hfrne : pre ++ (sep ++ s :: (σd ++ e :: εd)) ≠ [] := by
    intro hc
    rw [List.append_eq_nil] at hc
    exact hpre hc.1
  have hfrsl : ∀ c ∈ pre ++ (sep ++ s :: (σd ++ e :: εd)), ¬ c = '/' := by
    intro c hc
    rcases List.mem_append.mp hc with h1 | h1
    · exact hpresl c h1
    rcases List.mem_append.mp h1 with h2 | h2
    · exact sepCh_not_slash c (hsepc c h2)
    rcases List.mem_cons.mp h2 with h3 | h3
    · rw [h3]
      exact sCh_not_slash s hs
    rcases List.mem_append.mp h3 with h4 | h4
    · exact digit_not_slash c (hσall c h4)
    rcases List.mem_cons.mp h4 with h5 | h5
    · rw [h5]
      exact eCh_not_slash e he
    · exact digit_not_slash c (hεall c h5)
  have hextS : jsExtname ⟨(pre ++ (sep ++ s :: (σd ++ e :: εd))) ++ '.' :: extwd⟩ =
      ⟨'.' :: extwd⟩ :=
    congrArg String.mk (jsExtnameL_spec _ _ hfrne hfrsl hext
      (fun c hc => (hextc c hc).1) (fun c hc => (hextc c hc).2))
  have hnameL : jsBasenameExtL ((pre ++ (sep ++ s :: (σd ++ e :: εd))) ++ '.' :: extwd)
      ('.' :: extwd) = pre ++ (sep ++ s :: (σd ++ e :: εd)) :=
    jsBasenameExtL_spec _ _ hfrne hfrsl (fun c hc => (hextc c hc).2)
  have hsucc : tvTail1 (sep ++ s :: (σd ++ e :: εd)) = some (σd, εd) := by
    rw [tvTail1_sepRun_append sep _ hsepc, tvTail1_cons_nonsep _ _ (sCh_not_sep s hs),
      if_pos hs]
    rcases hσ with ⟨d1, hq, hd1⟩ | ⟨d1, d2, hq, hd1, hd2⟩ <;> subst hq <;> subst hεq
    · simpa using
        matchSeasonMark_one_digit isECh d1 e g1 g2 [] hd1 (eCh_not_digit e he) he hg1 hg2
    · simpa using
        matchSeasonMark_two_digit isECh d1 d2 e g1 g2 [] hd1 hd2 he hg1 hg2
  have hkpost : ∀ c0, (sep ++ s :: (σd ++ e :: εd)).head? = some c0 →
      isDigitCh c0 = false ∧ isECh c0 = false := by
    obtain ⟨c1, sep2, hsq⟩ := List.exists_cons_of_ne_nil hsep
    intro c0 hc0
    rw [hsq, List.cons_append] at hc0
    simp only [List.head?_cons, Option.some.injEq] at hc0
    have hcs : isSepCh c0 = true := by
      rw [← hc0]
      exact hsepc c1 (by rw [hsq]; simp)
    exact ⟨sepCh_not_digit c0 hcs, sepCh_not_e c0 hcs⟩
  have hscan : scanWith tvTail1 [] (pre ++ (sep ++ s :: (σd ++ e :: εd))) =
      some (pre, (σd, εd)) := by
    have := scanWith_append_succ tvTail1 [] pre (sep ++ s :: (σd ++ e :: εd)) (σd, εd)
      hpre hpredot
      (fun n hn => tvTail1_fail_chunk (pre.drop (n + 1)) _
        (by rw [endsNonSep_drop pre (n + 1) hn]; exact hlast)
        (hasTok_drop seAt pre (hasTok_seAt_no_digits pre hpred) (n + 1))
        hkpost)
      hsucc
    simpa using this
  simp only [parseFilename, hextS, hnameL, hscan]

end Mnamer

namespace Mnamer

theorem tvTail1_none_digits_suffix (l : List Char)
    (hall : ∀ c ∈ l, isDigitCh c = true) :
    ∀ m, tvTail1 (l.drop m) = none := by
  intro m
  cases hd : l.drop m with
  | nil => rfl
  | cons c t =>
    have hc : c ∈ l := List.drop_subset m l (by rw [hd]; simp)
    exact tvTail1_cons_digit c t (hall c hc)

theorem tvTail1_none_sigma_x (σd εd : List Char) (x : Char)
    (hσall : ∀ c ∈ σd, isDigitCh c = true)
    (hx : isXCh x = true)
    (hεall : ∀ c ∈ εd, isDigitCh c = true) :
    ∀ m, tvTail1 ((σd ++ x :: εd).drop m) = none := by
  intro m
  rw [List.drop_append_eq_append_drop]
  by_cases h1 : m < σd.length
  · rw [show m - σd.length = 0 from by omega, List.drop_zero]
    cases hd : σd.drop m with
    | nil =>
      exfalso
      have := congrArg List.length hd
      simp [List.length_drop] at this
      omega
    | cons c t =>
      rw [List.cons_append]
      have hc : c ∈ σd := List.drop_subset m σd (by rw [hd]; simp)
      exact tvTail1_cons_digit c _ (hσall c hc)
  · rw [List.drop_eq_nil_of_le (by omega), List.nil_append]
    cases hm2 : m - σd.length with
    | zero =>
      rw [List.drop_zero]
      exact tvTail1_cons_notS x _ (xCh_not_sep x hx) (xCh_not_s x hx)
    | succ m3 =>
      rw [List.drop_succ_cons]
      exact tvTail1_none_digits_suffix εd hεall m3

/-- Core of C5 for the `NxNN` shape, at the character-list level. -/
theorem parse_tv2_core (pre sep σd εd extwd : List Char) (x : Char)
    (hpre : pre ≠ [])
    (hpred : ∀ c ∈ pre, isDigitCh c = false)
    (hpredot : ∀ c ∈ pre, dotOk c = true)
    (hpresl : ∀ c ∈ pre, ¬ c = '/')
    (hlast : endsNonSep pre = true)
    (hsep : sep ≠ []) (hsepc : ∀ c ∈ sep, isSepCh c = true)
    (hx : isXCh x = true)
    (hσ : (∃ d1, σd = [d1] ∧ isDigitCh d1 = true) ∨
        (∃ d1 d2, σd = [d1, d2] ∧ isDigitCh d1 = true ∧ isDigitCh d2 = true))
    (hε : ∃ g1 g2, εd = [g1, g2] ∧ isDigitCh g1 = true ∧ isDigitCh g2 = true)
    (hext : extwd ≠ []) (hextc : ∀ c ∈ extwd, ¬ c = '.' ∧ ¬ c = '/') :
    parseFilename ⟨(pre ++ (sep ++ (σd ++ x :: εd))) ++ '.' :: extwd⟩ =
      some { type := .tv, title := titleCase (cleanTitle ⟨pre⟩),
             season := some (jsParseIntL σd), episode := some (jsParseIntL εd),
             year := none, ext := ⟨'.' :: extwd⟩,
             originalName := ⟨pre ++ (sep ++ (σd ++ x :: εd))⟩ } := by
  have hσall := seasonShape_all_digits σd hσ
  obtain ⟨g1, g2, hεq, hg1, hg2⟩ := hε
  have hεall : ∀ c ∈ εd, isDigitCh c = true := by
    subst hεq
    intro c hc
    rcases List.mem_cons.mp hc with h1 | h1
    · subst h1
      exact hg1
    · rw [List.mem_singleton.mp h1]
      exact hg2
  have hfrne : pre ++ (sep ++ (σd ++ x :: εd)) ≠ [] := by
    intro hc
    rw [List.append_eq_nil] at hc
    exact hpre hc.1
  have hfrsl : ∀ c ∈ pre ++ (sep ++ (σd ++ x :: εd)), ¬ c = '/' := by
    intro c hc
    rcases List.mem_append.mp hc with h1 | h1
    · exact hpresl c h1
    rcases List.mem_append.mp h1 with h2 | h2
    · exact sepCh_not_slash c (hsepc c h2)
    rcases List.mem_append.mp h2 with h3 | h3
    · exact digit_not_slash c (hσall c h3)
    rcases List.mem_cons.mp h3 with h4 | h4
    · rw [h4]
      exact xCh_not_slash x hx
    · exact digit_not_slash c (hεall c h4)
  have hextS : jsExtname ⟨(pre ++ (sep ++ (σd ++ x :: εd))) ++ '.' :: extwd⟩ =
      ⟨'.' :: extwd⟩ :=
    congrArg String.mk (jsExtnameL_spec _ _ hfrne hfrsl hext
      (fun c hc => (hextc c hc).1) (fun c hc => (hextc c hc).2))
  have hnameL : jsBasenameExtL ((pre ++ (sep ++ (σd ++ x :: εd))) ++ '.' :: extwd)
      ('.' :: extwd) = pre ++ (sep ++ (σd ++ x :: εd)) :=
    jsBasenameExtL_spec _ _ hfrne hfrsl (fun c hc => (hextc c hc).2)
  have hkpost : ∀ c0, (sep ++ (σd ++ x :: εd)).head? = some c0 →
      isDigitCh c0 = false ∧ isECh c0 = false ∧ isXCh c0 = false := by
    obtain ⟨c1, sep2, hsq⟩ := List.exists_cons_of_ne_nil hsep
    intro c0 hc0
    rw [hsq, List.cons_append] at hc0
    simp only [List.head?_cons, Option.some.injEq] at hc0
    have hcs : isSepCh c0 = true := by
      rw [← hc0]
      exact hsepc c1 (by rw [hsq]; simp)
    exact ⟨sepCh_not_digit c0 hcs, sepCh_not_e c0 hcs, sepCh_not_x c0 hcs⟩
  have hscan1 : scanWith tvTail1 [] (pre ++ (sep ++ (σd ++ x :: εd))) = none := by
    apply scanWith_none_of
    intro n
    rw [List.drop_append_eq_append_drop]
    by_cases h1 : n + 1 < pre.length
    · rw [show n + 1 - pre.length = 0 from by omega, List.drop_zero]
      exact tvTail1_fail_chunk (pre.drop (n + 1)) _
        (by rw [endsNonSep_drop pre (n + 1) h1]; exact hlast)
        (hasTok_drop seAt pre (hasTok_seAt_no_digits pre hpred) (n + 1))
        (fun c0 hc0 => ⟨(hkpost c0 hc0).1, (hkpost c0 hc0).2.1⟩)
    · rw [List.drop_eq_nil_of_le (by omega), List.nil_append]
      rw [List.drop_append_eq_append_drop]
      by_cases h2 : n + 1 - pre.length < sep.length
      · rw [show n + 1 - pre.length - sep.length = 0 from by omega, List.drop_zero]
        cases hd : sep.drop (n + 1 - pre.length) with
        | nil =>
          exfalso
          have := congrArg List.length hd
          simp [List.length_drop] at this
          omega
        | cons c t =>
          have hsub : ∀ y ∈ c :: t, isSepCh y = true := fun y hy =>
            hsepc y (List.drop_subset _ sep (by rw [hd]; exact hy))
          rw [tvTail1_sepRun_append (c :: t) _ hsub]
          simpa using tvTail1_none_sigma_x σd εd x hσall hx hεall 0
      · rw [List.drop_eq_nil_of_le (by omega), List.nil_append]
        exact tvTail1_none_sigma_x σd εd x hσall hx hεall _
  have hsucc2 : tvTail2 (sep ++ (σd ++ x :: εd)) = some (σd, εd) := by
    rw [tvTail2_sepRun_append sep _ hsepc]
    rcases hσ with ⟨d1, hq, hd1⟩ | ⟨d1, d2, hq, hd1, hd2⟩ <;> subst hq <;> subst hεq
    · rw [show ([d1] ++ x :: [g1, g2] : List Char) = d1 :: x :: g1 :: g2 :: [] from by simp]
      rw [tvTail2_cons_nonsep _ _ (digit_not_sep d1 hd1)]
      exact matchSeasonMark_one_digit isXCh d1 x g1 g2 [] hd1 (xCh_not_digit x hx) hx hg1 hg2
    · rw [show ([d1, d2] ++ x :: [g1, g2] : List Char) =
        d1 :: d2 :: x :: g1 :: g2 :: [] from by simp]
      rw [tvTail2_cons_nonsep _ _ (digit_not_sep d1 hd1)]
      exact matchSeasonMark_two_digit isXCh d1 d2 x g1 g2 [] hd1 hd2 hx hg1 hg2
  have hscan2 : scanWith tvTail2 [] (pre ++ (sep ++ (σd ++ x :: εd))) =
      some (pre, (σd, εd)) := by
    have := scanWith_append_succ tvTail2 [] pre (sep ++ (σd ++ x :: εd)) (σd, εd)
      hpre hpredot
      (fun n hn => tvTail2_fail_chunk (pre.drop (n + 1)) _
        (by rw [endsNonSep_drop pre (n + 1) hn]; exact hlast)
        (hasTok_drop xAt pre (hasTok_xAt_no_digits pre hpred) (n + 1))
        (fun c0 hc0 => ⟨(hkpost c0 hc0).1, (hkpost c0 hc0).2.2⟩))
      hsucc2
    simpa using this
  simp only [parseFilename, hextS, hnameL, hscan1, hscan2]

end Mnamer

namespace Mnamer

/-- C5: every basename of the shape `Name.SxxEyy.ext` — a title prefix whose
characters are not digits, not line terminators and not slashes, ending in a
non-separator; a nonempty separator run over `. _ -` and space; `s`/`S`; a
one- or two-digit season; `e`/`E`; a two-digit episode; a dot and a nonempty
dot-free extension word — parses to a TV record with the season and episode
read as base-10 integers, the title normalised from the prefix, and the
dotted extension.  Likewise every basename of the shape `Name.NxNN.ext` with
`x`/`X` in place of the `S`/`E` markers. -/
theorem parse_tv_patterns :
    (∀ (pre sep σ ε extw : String) (s e : Char),
      pre.data ≠ [] →
      (∀ c ∈ pre.data, isDigitCh c = false ∧ dotOk c = true ∧ ¬ c = '/') →
      endsNonSep pre.data = true →
      sep.data ≠ [] →
      (∀ c ∈ sep.data, isSepCh c = true) →
      isSCh s = true →
      isECh e = true →
      ((∃ d1, σ.data = [d1] ∧ isDigitCh d1 = true) ∨
        (∃ d1 d2, σ.data = [d1, d2] ∧ isDigitCh d1 = true ∧ isDigitCh d2 = true)) →
      (∃ g1 g2, ε.data = [g1, g2] ∧ isDigitCh g1 = true ∧ isDigitCh g2 = true) →
      extw.data ≠ [] →
      (∀ c ∈ extw.data, ¬ c = '.' ∧ ¬ c = '/') →
      parseFilename (pre ++ sep ++ ⟨[s]⟩ ++ σ ++ ⟨[e]⟩ ++ ε ++ "." ++ extw) =
        some { type := .tv, title := titleCase (cleanTitle pre),
               season := some (jsParseInt σ), episode := some (jsParseInt ε),
               year := none, ext := "." ++ extw,
               originalName := pre ++ sep ++ ⟨[s]⟩ ++ σ ++ ⟨[e]⟩ ++ ε }) ∧
    (∀ (pre sep σ ε extw : String) (x : Char),
      pre.data ≠ [] →
      (∀ c ∈ pre.data, isDigitCh c = false ∧ dotOk c = true ∧ ¬ c = '/') →
      endsNonSep pre.data = true →
      sep.data ≠ [] →
      (∀ c ∈ sep.data, isSepCh c = true) →
      isXCh x = true →
      ((∃ d1, σ.data = [d1] ∧ isDigitCh d1 = true) ∨
        (∃ d1 d2, σ.data = [d1, d2] ∧ isDigitCh d1 = true ∧ isDigitCh d2 = true)) →
      (∃ g1 g2, ε.data = [g1, g2] ∧ isDigitCh g1 = true ∧ isDigitCh g2 = true) →
      extw.data ≠ [] →
      (∀ c ∈ extw.data, ¬ c = '.' ∧ ¬ c = '/') →
      parseFilename (pre ++ sep ++ σ ++ ⟨[x]⟩ ++ ε ++ "." ++ extw) =
        some { type := .tv, title := titleCase (cleanTitle pre),
               season := some (jsParseInt σ), episode := some (jsParseInt ε),
               year := none, ext := "." ++ extw,
               originalName := pre ++ sep ++ σ ++ ⟨[x]⟩ ++ ε }) := by
  constructor
  · intro pre sep σ ε extw s e hpre hchars hlast hsepne hsepc hs he hσ hε hext hextc
    have hfeq : pre ++ sep ++ ⟨[s]⟩ ++ σ ++ ⟨[e]⟩ ++ ε ++ "." ++ extw =
        (⟨(pre.data ++ (sep.data ++ s :: (σ.data ++ e :: ε.data))) ++ '.' :: extw.data⟩ :
          String) := by
      apply strExt
      simp [String.data_append]
    rw [hfeq,
      parse_tv1_core pre.data sep.data σ.data ε.data extw.data s e hpre
        (fun c hc => (hchars c hc).1) (fun c hc => (hchars c hc).2.1)
        (fun c hc => (hchars c hc).2.2) hlast hsepne hsepc hs he hσ hε hext hextc]
    refine congrArg some ?_
    have hon : (⟨pre.data ++ (sep.data ++ s :: (σ.data ++ e :: ε.data))⟩ : String) =
        pre ++ sep ++ ⟨[s]⟩ ++ σ ++ ⟨[e]⟩ ++ ε := by
      apply strExt
      simp [String.data_append]
    have hex2 : (⟨'.' :: extw.data⟩ : String) = "." ++ extw := by
      apply strExt
      simp [String.data_append]
    rw [hon, hex2]
    rfl
  · intro pre sep σ ε extw x hpre hchars hlast hsepne hsepc hx hσ hε hext hextc
    have hfeq : pre ++ sep ++ σ ++ ⟨[x]⟩ ++ ε ++ "." ++ extw =
        (⟨(pre.data ++ (sep.data ++ (σ.data ++ x :: ε.data))) ++ '.' :: extw.data⟩ :
          String) := by
      apply strExt
      simp [String.data_append]
    rw [hfeq,
      parse_tv2_core pre.data sep.data σ.data ε.data extw.data x hpre
        (fun c hc => (hchars c hc).1) (fun c hc => (hchars c hc).2.1)
        (fun c hc => (hchars c hc).2.2) hlast hsepne hsepc hx hσ hε hext hextc]
    refine congrArg some ?_
    have hon : (⟨pre.data ++ (sep.data ++ (σ.data ++ x :: ε.data))⟩ : String) =
        pre ++ sep ++ σ ++ ⟨[x]⟩ ++ ε := by
      apply strExt
      simp [String.data_append]
    have hex2 : (⟨'.' :: extw.data⟩ : String) = "." ++ extw := by
      apply strExt
      simp [String.data_append]
    rw [hon, hex2]
    rfl

/-- Witness for C5: `"Name.S01E02.ext"` and `"Name.1x02.ext"`. -/
theorem parse_tv_patterns_witness :
    parseFilename ("Name" ++ "." ++ ⟨['S']⟩ ++ "01" ++ ⟨['E']⟩ ++ "02" ++ "." ++ "ext") =
      some { type := .tv, title := titleCase (cleanTitle "Name"),
             season := some (jsParseInt "01"), episode := some (jsParseInt "02"),
             year := none, ext := "." ++ "ext",
             originalName := "Name" ++ "." ++ ⟨['S']⟩ ++ "01" ++ ⟨['E']⟩ ++ "02" } ∧
    parseFilename ("Name" ++ "." ++ "1" ++ ⟨['x']⟩ ++ "02" ++ "." ++ "ext") =
      some { type := .tv, title := titleCase (cleanTitle "Name"),
             season := some (jsParseInt "1"), episode := some (jsParseInt "02"),
             year := none, ext := "." ++ "ext",
             originalName := "Name" ++ "." ++ "1" ++ ⟨['x']⟩ ++ "02" } := by
  constructor
  · exact parse_tv_patterns.1 "Name" "." "01" "02" "ext" 'S' 'E'
      (by decide) (by decide) (by decide) (by decide) (by decide) (by decide) (by decide)
      (Or.inr ⟨'0', '1', by decide, by decide, by decide⟩)
      ⟨'0', '2', by decide, by decide, by decide⟩ (by decide) (by decide)
  · exact parse_tv_patterns.2 "Name" "." "1" "02" "ext" 'x'
      (by decide) (by decide) (by decide) (by decide) (by decide) (by decide)
      (Or.inl ⟨'1', by decide, by decide⟩)
      ⟨'0', '2', by decide, by decide, by decide⟩ (by decide) (by decide)

end Mnamer

namespace Mnamer

/-! ## Machinery for C7 (generate/parse round trip on normalized records) -/

theorem digit_not_x (c : Char) (h : isDigitCh c = true) : isXCh c = false := by
  unfold isDigitCh at h
  simp only [Bool.and_eq_true, decide_eq_true_eq] at h
  unfold isXCh
  have h1 : ¬ c = 'x' := by intro hh; subst hh; exact absurd h (by decide)
  have h2 : ¬ c = 'X' := by intro hh; subst hh; exact absurd h (by decide)
  simp [h1, h2]

theorem opt_none_of_isSome_false {α : Type} (o : Option α) (h : o.isSome = false) :
    o = none := by
  cases o with
  | none => rfl
  | some v => simp at h

/-- A normalized extension: empty, or a dot followed by a nonempty word
containing no dot and no slash. -/
def extOkB (ext : String) : Bool :=
  match ext.data with
  | [] => true
  | '.' :: w => !w.isEmpty && w.all (fun c => !(c = '.') && !(c = '/'))
  | _ => false

/-- A normalized title: nonempty, a fixed point of the normalizer, free of
dots, slashes and line terminators, not ending in a separator, and containing
no complete season/episode, `NxNN` or year token. -/
def titleOkB (t : String) : Bool :=
  !t.data.isEmpty && (titleCase (cleanTitle t) == t) &&
  t.data.all (fun c => !(c = '.') && dotOk c && !(c = '/')) &&
  endsNonSep t.data &&
  !hasTok seAt t.data && !hasTok xAt t.data && !hasTok yearAt t.data

/-- A well-formed record already in normalized form: normalized title and
extension; a TV record carries a season and an episode at most 99; a movie
record carries no season/episode and a year, when present, in [1900, 2099]. -/
def isNormalizedRecord (r : ParsedMedia) : Bool :=
  titleOkB r.title && extOkB r.ext &&
  (match r.type with
   | .tv =>
     (match r.season with
      | some n => decide (n ≤ 99)
      | none => false) &&
     (match r.episode with
      | some m => decide (m ≤ 99)
      | none => false)
   | .movie =>
     decide (r.season = none) && decide (r.episode = none) &&
     (match r.year with
      | some y => decide (1900 ≤ y) && decide (y ≤ 2099)
      | none => true))

/-- `pad2 (some n)` produces two decimal digits reading back as `n`. -/
def pad2Ok (n : Nat) : Bool :=
  match (pad2 (some n)).data with
  | [a, b] => isDigitCh a && isDigitCh b && decide (jsParseIntL [a, b] = n)
  | _ => false

theorem pad2Ok_le_99 (n : Nat) (hn : n ≤ 99) : pad2Ok n = true := by
  have hall : ((List.range 100).all (fun k => pad2Ok k)) = true := by decide
  have h2 := List.all_eq_true.mp hall n (List.mem_range.mpr (by omega))
  simpa using h2

theorem pad2_spec (n : Nat) (hn : n ≤ 99) :
    ∃ a b, (pad2 (some n)).data = [a, b] ∧ isDigitCh a = true ∧ isDigitCh b = true ∧
      jsParseIntL [a, b] = n := by
  have h := pad2Ok_le_99 n hn
  unfold pad2Ok at h
  split at h
  · next a b heq =>
    simp only [Bool.and_eq_true, decide_eq_true_eq] at h
    exact ⟨a, b, heq, h.1.1, h.1.2, h.2⟩
  · exact Bool.noConfusion h

/-- `toString y` for a year in [1900, 2099] is `19xx` or `20xx` and reads
back as `y`. -/
def yearOkB (y : Nat) : Bool :=
  match (toString y).data with
  | [a, b, c, d] =>
    ((a = '1' && b = '9') || (a = '2' && b = '0')) && isDigitCh c && isDigitCh d &&
    decide (jsParseIntL [a, b, c, d] = y)
  | _ => false

theorem yearOkB_in_range (y : Nat) (h1 : 1900 ≤ y) (h2 : y ≤ 2099) : yearOkB y = true := by
  have hall : ((List.range 200).all (fun k => yearOkB (1900 + k))) = true := by decide
  have h3 := List.all_eq_true.mp hall (y - 1900) (List.mem_range.mpr (by omega))
  simp only at h3
  rw [show 1900 + (y - 1900) = y from by omega] at h3
  exact h3

theorem year_spec (y : Nat) (h1 : 1900 ≤ y) (h2 : y ≤ 2099) :
    ∃ a b c d, (toString y).data = [a, b, c, d] ∧
      ((a = '1' && b = '9') || (a = '2' && b = '0')) = true ∧
      isDigitCh c = true ∧ isDigitCh d = true ∧ jsParseIntL [a, b, c, d] = y := by
  have h := yearOkB_in_range y h1 h2
  unfold yearOkB at h
  split at h
  · next a b c d heq =>
    simp only [Bool.and_eq_true, decide_eq_true_eq] at h
    exact ⟨a, b, c, d, heq, by simp [h.1.1.1], h.1.1.2, h.1.2, h.2⟩
  · exact Bool.noConfusion h

/-- Name and extension extraction for a generated `name ++ ext` string with a
normalized extension and a dot-free, slash-free name. -/
theorem parse_name_ext_split (N : List Char) (extS : String)
    (hN : N ≠ []) (hNsl : ∀ c ∈ N, ¬ c = '/') (hNdot : ∀ c ∈ N, ¬ c = '.')
    (hext : extOkB extS = true) :
    jsExtname ⟨N ++ extS.data⟩ = extS ∧
    jsBasenameExtL (N ++ extS.data) extS.data = N := by
  unfold extOkB at hext
  split at hext
  · next hdat =>
    rw [hdat, List.append_nil]
    constructor
    · apply strExt
      show jsExtnameL N = extS.data
      rw [hdat]
      exact jsExtnameL_noext N hNsl hNdot
    · exact jsBasenameExtL_noext N hNsl
  · next w hdat =>
    simp only [Bool.and_eq_true, List.all_eq_true] at hext
    have hw : w ≠ [] := by
      intro hc
      rw [hc] at hext
      simp [List.isEmpty] at hext
    have hwd : ∀ c ∈ w, ¬ c = '.' := fun c hc => by
      have := hext.2 c hc
      simp only [Bool.and_eq_true] at this
      simpa using this.1
    have hws : ∀ c ∈ w, ¬ c = '/' := fun c hc => by
      have := hext.2 c hc
      simp only [Bool.and_eq_true] at this
      simpa using this.2
    rw [hdat]
    constructor
    · apply strExt
      show jsExtnameL (N ++ '.' :: w) = extS.data
      rw [hdat]
      exact jsExtnameL_spec N w hN hNsl hw hwd hws
    · exact jsBasenameExtL_spec N w hN hNsl hws
  · exact Bool.noConfusion hext

end Mnamer

namespace Mnamer

theorem matchSeasonMark_none (mark : Char → Bool) (l : List Char)
    (h : mseWithin mark l = false) : matchSeasonMark mark l = none :=
  opt_none_of_isSome_false _ (by rw [matchSeasonMark_isSome, h])

theorem titleOkB_props (t : String) (h : titleOkB t = true) :
    t.data ≠ [] ∧ titleCase (cleanTitle t) = t ∧
    (∀ c ∈ t.data, ¬ c = '.') ∧ (∀ c ∈ t.data, dotOk c = true) ∧
    (∀ c ∈ t.data, ¬ c = '/') ∧ endsNonSep t.data = true ∧
    hasTok seAt t.data = false ∧ hasTok xAt t.data = false ∧
    hasTok yearAt t.data = false := by
  unfold titleOkB at h
  simp only [Bool.and_eq_true, Bool.not_eq_true', List.all_eq_true, beq_iff_eq] at h
  obtain ⟨⟨⟨⟨⟨⟨h1, h2⟩, h3⟩, h4⟩, h5⟩, h6⟩, h7⟩ := h
  refine ⟨?_, h2, ?_, ?_, ?_, h4, h5, h6, h7⟩
  · intro hc
    rw [hc] at h1
    simp [List.isEmpty] at h1
  · intro c hc
    have := h3 c hc
    simp only [Bool.and_eq_true] at this
    simpa using this.1.1
  · intro c hc
    have := h3 c hc
    simp only [Bool.and_eq_true] at this
    exact this.1.2
  · intro c hc
    have := h3 c hc
    simp only [Bool.and_eq_true] at this
    simpa using this.2

/-- `tvTail1` fails at every start inside the movie suffix `" (yyyy)"`. -/
theorem tvTail1_none_moviepost (y1 y2 y3 y4 : Char)
    (h1 : isDigitCh y1 = true) (h2 : isDigitCh y2 = true)
    (h3 : isDigitCh y3 = true) (h4 : isDigitCh y4 = true) :
    ∀ m, tvTail1 (([' ', '(', y1, y2, y3, y4, ')']).drop m) = none := by
  intro m
  rcases m with _ | _ | _ | _ | _ | _ | _ | m <;>
    simp only [List.drop_succ_cons, List.drop_zero, List.drop_nil]
  · rw [tvTail1_cons_sep _ _ (by decide)]
    exact tvTail1_cons_notS '(' _ (by decide) (by decide)
  · exact tvTail1_cons_notS '(' _ (by decide) (by decide)
  · exact tvTail1_cons_digit _ _ h1
  · exact tvTail1_cons_digit _ _ h2
  · exact tvTail1_cons_digit _ _ h3
  · exact tvTail1_cons_digit _ _ h4
  · exact tvTail1_cons_notS ')' _ (by decide) (by decide)
  · rfl

/-- `tvTail2` fails at every start inside the movie suffix `" (yyyy)"`. -/
theorem tvTail2_none_moviepost (y1 y2 y3 y4 : Char)
    (h1 : isDigitCh y1 = true) (h2 : isDigitCh y2 = true)
    (h3 : isDigitCh y3 = true) (h4 : isDigitCh y4 = true) :
    ∀ m, tvTail2 (([' ', '(', y1, y2, y3, y4, ')']).drop m) = none := by
  intro m
  rcases m with _ | _ | _ | _ | _ | _ | _ | m <;>
    simp only [List.drop_succ_cons, List.drop_zero, List.drop_nil]
  · rw [tvTail2_cons_sep _ _ (by decide), tvTail2_cons_nonsep _ _ (by decide)]
    exact matchSeasonMark_head_none isXCh '(' _ (by decide)
  · rw [tvTail2_cons_nonsep _ _ (by decide)]
    exact matchSeasonMark_head_none isXCh '(' _ (by decide)
  · rw [tvTail2_cons_nonsep _ _ (digit_not_sep y1 h1)]
    exact matchSeasonMark_none isXCh _
      (by simp [mseWithin, digit_not_x y2 h2, digit_not_x y3 h3])
  · rw [tvTail2_cons_nonsep _ _ (digit_not_sep y2 h2)]
    exact matchSeasonMark_none isXCh _ (by simp [mseWithin, digit_not_x y3 h3])
  · rw [tvTail2_cons_nonsep _ _ (digit_not_sep y3 h3)]
    exact matchSeasonMark_none isXCh _ (by simp [mseWithin])
  · rw [tvTail2_cons_nonsep _ _ (digit_not_sep y4 h4)]
    exact matchSeasonMark_none isXCh _ (by simp [mseWithin])
  · rw [tvTail2_cons_nonsep _ _ (by decide)]
    exact matchSeasonMark_head_none isXCh ')' _ (by decide)
  · rfl

/-- `tvRegex1` has no match anywhere in a normalized bare title. -/
theorem scan1_none_title (T : List Char)
    (hlast : endsNonSep T = true) (hse : hasTok seAt T = false) :
    scanWith tvTail1 [] T = none := by
  apply scanWith_none_of
  intro n
  by_cases hlen : n + 1 < T.length
  · have := tvTail1_fail_chunk (T.drop (n + 1)) []
      (by rw [endsNonSep_drop T _ hlen]; exact hlast)
      (hasTok_drop seAt T hse _)
      (by intro c0 hc0; simp at hc0)
    simpa using this
  · rw [List.drop_eq_nil_of_le (by omega)]
    rfl

/-- `tvRegex2` has no match anywhere in a normalized bare title. -/
theorem scan2_none_title (T : List Char)
    (hlast : endsNonSep T = true) (hx : hasTok xAt T = false) :
    scanWith tvTail2 [] T = none := by
  apply scanWith_none_of
  intro n
  by_cases hlen : n + 1 < T.length
  · have := tvTail2_fail_chunk (T.drop (n + 1)) []
      (by rw [endsNonSep_drop T _ hlen]; exact hlast)
      (hasTok_drop xAt T hx _)
      (by intro c0 hc0; simp at hc0)
    simpa using this
  · rw [List.drop_eq_nil_of_le (by omega)]
    rfl

/-- `movieRegex` has no match anywhere in a normalized bare title. -/
theorem scanMovie_none_title (T : List Char)
    (hlast : endsNonSep T = true) (hy : hasTok yearAt T = false) :
    scanWith movieTail [] T = none := by
  apply scanWith_none_of
  intro n
  by_cases hlen : n + 1 < T.length
  · have := movieTail_fail_chunk (T.drop (n + 1)) []
      (by rw [endsNonSep_drop T _ hlen]; exact hlast)
      (hasTok_drop yearAt T hy _)
      (by intro c0 hc0; simp at hc0)
    simpa using this
  · rw [List.drop_eq_nil_of_le (by omega)]
    rfl

/-- `tvRegex1` has no match in a normalized title followed by `" (yyyy)"`. -/
theorem scan1_none_movie (T : List Char) (y1 y2 y3 y4 : Char)
    (hlast : endsNonSep T = true) (hse : hasTok seAt T = false)
    (h1 : isDigitCh y1 = true) (h2 : isDigitCh y2 = true)
    (h3 : isDigitCh y3 = true) (h4 : isDigitCh y4 = true) :
    scanWith tvTail1 [] (T ++ [' ', '(', y1, y2, y3, y4, ')']) = none := by
  apply scanWith_none_of
  intro n
  rw [List.drop_append_eq_append_drop]
  by_cases hlen : n + 1 < T.length
  · rw [show n + 1 - T.length = 0 from by omega, List.drop_zero]
    exact tvTail1_fail_chunk _ _
      (by rw [endsNonSep_drop T _ hlen]; exact hlast)
      (hasTok_drop seAt T hse _)
      (by
        intro c0 hc0
        have hc : c0 = ' ' := by simpa [eq_comm] using hc0
        rw [hc]
        exact ⟨by decide, by decide⟩)
  · rw [List.drop_eq_nil_of_le (by omega), List.nil_append]
    exact tvTail1_none_moviepost y1 y2 y3 y4 h1 h2 h3 h4 _

/-- `tvRegex2` has no match in a normalized title followed by `" (yyyy)"`. -/
theorem scan2_none_movie (T : List Char) (y1 y2 y3 y4 : Char)
    (hlast : endsNonSep T = true) (hx : hasTok xAt T = false)
    (h1 : isDigitCh y1 = true) (h2 : isDigitCh y2 = true)
    (h3 : isDigitCh y3 = true) (h4 : isDigitCh y4 = true) :
    scanWith tvTail2 [] (T ++ [' ', '(', y1, y2, y3, y4, ')']) = none := by
  apply scanWith_none_of
  intro n
  rw [List.drop_append_eq_append_drop]
  by_cases hlen : n + 1 < T.length
  · rw [show n + 1 - T.length = 0 from by omega, List.drop_zero]
    exact tvTail2_fail_chunk _ _
      (by rw [endsNonSep_drop T _ hlen]; exact hlast)
      (hasTok_drop xAt T hx _)
      (by
        intro c0 hc0
        have hc : c0 = ' ' := by simpa [eq_comm] using hc0
        rw [hc]
        exact ⟨by decide, by decide⟩)
  · rw [List.drop_eq_nil_of_le (by omega), List.nil_append]
    exact tvTail2_none_moviepost y1 y2 y3 y4 h1 h2 h3 h4 _

/-- The movie scan on a normalized title followed by `" (yyyy)"` captures the
title and the year digits. -/
theorem scanMovie_movie (T : List Char) (y1 y2 y3 y4 : Char)
    (hT : T ≠ []) (hTdot : ∀ c ∈ T, dotOk c = true)
    (hlast : endsNonSep T = true) (hy : hasTok yearAt T = false)
    (h19 : ((y1 = '1' && y2 = '9') || (y1 = '2' && y2 = '0')) = true)
    (h3 : isDigitCh y3 = true) (h4 : isDigitCh y4 = true) :
    scanWith movieTail [] (T ++ [' ', '(', y1, y2, y3, y4, ')']) =
      some (T, [y1, y2, y3, y4]) := by
  have hsucc : movieTail [' ', '(', y1, y2, y3, y4, ')'] = some [y1, y2, y3, y4] := by
    rw [movieTail_cons_sep _ _ (by decide), movieTail_cons_nonsep _ _ (by decide),
      if_pos rfl]
    simp [matchYear, h19, h3, h4]
  have := scanWith_append_succ movieTail [] T _ [y1, y2, y3, y4] hT hTdot
    (fun n hn => movieTail_fail_chunk (T.drop (n + 1)) _
      (by rw [endsNonSep_drop T _ hn]; exact hlast)
      (hasTok_drop yearAt T hy _)
      (by
        intro c0 hc0
        have hc : c0 = ' ' := by simpa [eq_comm] using hc0
        rw [hc]
        decide))
    hsucc
  simpa using this

/-- The TV scan on a normalized title followed by `" - SaaEbb"` captures the
title and the digit pairs. -/
theorem scan1_tvname (T : List Char) (a b cc dd : Char)
    (hT : T ≠ []) (hTdot : ∀ c ∈ T, dotOk c = true)
    (hlast : endsNonSep T = true) (hse : hasTok seAt T = false)
    (ha : isDigitCh a = true) (hb : isDigitCh b = true)
    (hc : isDigitCh cc = true) (hd : isDigitCh dd = true) :
    scanWith tvTail1 [] (T ++ [' ', '-', ' ', 'S', a, b, 'E', cc, dd]) =
      some (T, ([a, b], [cc, dd])) := by
  have hsucc : tvTail1 [' ', '-', ' ', 'S', a, b, 'E', cc, dd] =
      some ([a, b], [cc, dd]) := by
    rw [tvTail1_cons_sep _ _ (by decide), tvTail1_cons_sep _ _ (by decide),
      tvTail1_cons_sep _ _ (by decide), tvTail1_cons_nonsep _ _ (by decide),
      if_pos (by decide)]
    exact matchSeasonMark_two_digit isECh a b 'E' cc dd [] ha hb (by decide) hc hd
  have := scanWith_append_succ tvTail1 [] T _ ([a, b], [cc, dd]) hT hTdot
    (fun n hn => tvTail1_fail_chunk (T.drop (n + 1)) _
      (by rw [endsNonSep_drop T _ hn]; exact hlast)
      (hasTok_drop seAt T hse _)
      (by
        intro c0 hc0
        have hc2 : c0 = ' ' := by simpa [eq_comm] using hc0
        rw [hc2]
        exact ⟨by decide, by decide⟩))
    hsucc
  simpa using this

end Mnamer

namespace Mnamer

/-- TV case of the round trip: parsing the generated name recovers the
record up to `originalName`. -/
theorem roundtrip_tv_case (r : ParsedMedia) (n m : Nat)
    (ht : titleOkB r.title = true) (hext : extOkB r.ext = true)
    (hty : r.type = .tv) (hsea : r.season = some n) (hn : n ≤ 99)
    (hepi : r.episode = some m) (hm : m ≤ 99) :
    ∃ nm : String, parseFilename (generateFilename r) =
      some { type := .tv, title := r.title, season := some n, episode := some m,
             year := none, ext := r.ext, originalName := nm } := by
  obtain ⟨hTne, hfix, hTdot, hTdotOk, hTsl, hTlast, hTse, hTx, hTy⟩ := titleOkB_props _ ht
  obtain ⟨a, b, hab, ha, hb, hvab⟩ := pad2_spec n hn
  obtain ⟨cc, dd, hcd, hc, hd, hvcd⟩ := pad2_spec m hm
  have hgen : generateFilename r =
      r.title ++ " - S" ++ pad2 (some n) ++ "E" ++ pad2 (some m) ++ r.ext := by
    unfold generateFilename
    rw [hty, hsea, hepi]
  have hgen2 : generateFilename r =
      ⟨(r.title.data ++ [' ', '-', ' ', 'S', a, b, 'E', cc, dd]) ++ r.ext.data⟩ := by
    rw [hgen]
    apply strExt
    simp [String.data_append, hab, hcd]
  have hNne : r.title.data ++ [' ', '-', ' ', 'S', a, b, 'E', cc, dd] ≠ [] := by
    simp
  have hpost : ∀ c ∈ ([' ', '-', ' ', 'S', a, b, 'E', cc, dd] : List Char),
      ¬ c = '/' ∧ ¬ c = '.' := by
    intro c hcm
    simp only [List.mem_cons, List.not_mem_nil, or_false] at hcm
    rcases hcm with h2 | h2 | h2 | h2 | h2 | h2 | h2 | h2 | h2
    · subst h2; exact ⟨by decide, by decide⟩
    · subst h2; exact ⟨by decide, by decide⟩
    · subst h2; exact ⟨by decide, by decide⟩
    · subst h2; exact ⟨by decide, by decide⟩
    · rw [h2]; exact ⟨digit_not_slash a ha, digit_not_dot a ha⟩
    · rw [h2]; exact ⟨digit_not_slash b hb, digit_not_dot b hb⟩
    · subst h2; exact ⟨by decide, by decide⟩
    · rw [h2]; exact ⟨digit_not_slash cc hc, digit_not_dot cc hc⟩
    · rw [h2]; exact ⟨digit_not_slash dd hd, digit_not_dot dd hd⟩
  have hNsl : ∀ c ∈ r.title.data ++ [' ', '-', ' ', 'S', a, b, 'E', cc, dd],
      ¬ c = '/' := by
    intro c hcm
    rcases List.mem_append.mp hcm with h1 | h1
    · exact hTsl c h1
    · exact (hpost c h1).1
  have hNdot : ∀ c ∈ r.title.data ++ [' ', '-', ' ', 'S', a, b, 'E', cc, dd],
      ¬ c = '.' := by
    intro c hcm
    rcases List.mem_append.mp hcm with h1 | h1
    · exact hTdot c h1
    · exact (hpost c h1).2
  have hsplit := parse_name_ext_split _ r.ext hNne hNsl hNdot hext
  have hscan := scan1_tvname r.title.data a b cc dd hTne hTdotOk hTlast hTse ha hb hc hd
  refine ⟨⟨r.title.data ++ [' ', '-', ' ', 'S', a, b, 'E', cc, dd]⟩, ?_⟩
  rw [hgen2]
  simp only [parseFilename, hsplit.1, hsplit.2, hscan]
  have hfix2 : titleCase (cleanTitle ⟨r.title.data⟩) = r.title := hfix
  rw [hfix2, hvab, hvcd]

end Mnamer

namespace Mnamer

/-- Movie-with-year case of the round trip. -/
theorem roundtrip_movie_year_case (r : ParsedMedia) (y : Nat)
    (ht : titleOkB r.title = true) (hext : extOkB r.ext = true)
    (hty : r.type = .movie) (hyr : r.year = some y)
    (hy1 : 1900 ≤ y) (hy2 : y ≤ 2099) :
    ∃ nm : String, parseFilename (generateFilename r) =
      some { type := .movie, title := r.title, season := none, episode := none,
             year := some y, ext := r.ext, originalName := nm } := by
  obtain ⟨hTne, hfix, hTdot, hTdotOk, hTsl, hTlast, hTse, hTx, hTy⟩ := titleOkB_props _ ht
  obtain ⟨y1, y2, y3, y4, hyd, h19, hd3, hd4, hval⟩ := year_spec y hy1 hy2
  have h19p : (y1 = '1' ∧ y2 = '9') ∨ (y1 = '2' ∧ y2 = '0') := by
    simpa [Bool.or_eq_true, Bool.and_eq_true] using h19
  have hd1 : isDigitCh y1 = true := by
    rcases h19p with ⟨h, _⟩ | ⟨h, _⟩ <;> rw [h] <;> decide
  have hd2 : isDigitCh y2 = true := by
    rcases h19p with ⟨_, h⟩ | ⟨_, h⟩ <;> rw [h] <;> decide
  have hgen : generateFilename r =
      r.title ++ " (" ++ toString y ++ ")" ++ r.ext := by
    unfold generateFilename
    rw [hty, hyr]
  have hgen2 : generateFilename r =
      ⟨(r.title.data ++ [' ', '(', y1, y2, y3, y4, ')']) ++ r.ext.data⟩ := by
    rw [hgen]
    apply strExt
    simp [String.data_append, hyd]
  have hpost : ∀ c ∈ ([' ', '(', y1, y2, y3, y4, ')'] : List Char),
      ¬ c = '/' ∧ ¬ c = '.' := by
    intro c hcm
    simp only [List.mem_cons, List.not_mem_nil, or_false] at hcm
    rcases hcm with h2 | h2 | h2 | h2 | h2 | h2 | h2
    · subst h2; exact ⟨by decide, by decide⟩
    · subst h2; exact ⟨by decide, by decide⟩
    · rw [h2]; exact ⟨digit_not_slash y1 hd1, digit_not_dot y1 hd1⟩
    · rw [h2]; exact ⟨digit_not_slash y2 hd2, digit_not_dot y2 hd2⟩
    · rw [h2]; exact ⟨digit_not_slash y3 hd3, digit_not_dot y3 hd3⟩
    · rw [h2]; exact ⟨digit_not_slash y4 hd4, digit_not_dot y4 hd4⟩
    · subst h2; exact ⟨by decide, by decide⟩
  have hNne : r.title.data ++ [' ', '(', y1, y2, y3, y4, ')'] ≠ [] := by simp
  have hNsl : ∀ c ∈ r.title.data ++ [' ', '(', y1, y2, y3, y4, ')'], ¬ c = '/' := by
    intro c hcm
    rcases List.mem_append.mp hcm with h1 | h1
    · exact hTsl c h1
    · exact (hpost c h1).1
  have hNdot : ∀ c ∈ r.title.data ++ [' ', '(', y1, y2, y3, y4, ')'], ¬ c = '.' := by
    intro c hcm
    rcases List.mem_append.mp hcm with h1 | h1
    · exact hTdot c h1
    · exact (hpost c h1).2
  have hsplit := parse_name_ext_split _ r.ext hNne hNsl hNdot hext
  have hscan1 := scan1_none_movie r.title.data y1 y2 y3 y4 hTlast hTse hd1 hd2 hd3 hd4
  have hscan2 := scan2_none_movie r.title.data y1 y2 y3 y4 hTlast hTx hd1 hd2 hd3 hd4
  have hscanM := scanMovie_movie r.title.data y1 y2 y3 y4 hTne hTdotOk hTlast hTy
    h19 hd3 hd4
  refine ⟨⟨r.title.data ++ [' ', '(', y1, y2, y3, y4, ')']⟩, ?_⟩
  rw [hgen2]
  simp only [parseFilename, hsplit.1, hsplit.2, hscan1, hscan2, hscanM]
  have hfix2 : titleCase (cleanTitle ⟨r.title.data⟩) = r.title := hfix
  rw [hfix2, hval]

/-- Movie-without-year case of the round trip. -/
theorem roundtrip_movie_noyear_case (r : ParsedMedia)
    (ht : titleOkB r.title = true) (hext : extOkB r.ext = true)
    (hty : r.type = .movie) (hyr : r.year = none) :
    ∃ nm : String, parseFilename (generateFilename r) =
      some { type := .movie, title := r.title, season := none, episode := none,
             year := none, ext := r.ext, originalName := nm } := by
  obtain ⟨hTne, hfix, hTdot, hTdotOk, hTsl, hTlast, hTse, hTx, hTy⟩ := titleOkB_props _ ht
  have hgen : generateFilename r = r.title ++ r.ext := by
    unfold generateFilename
    rw [hty, hyr]
  have hgen2 : generateFilename r = ⟨r.title.data ++ r.ext.data⟩ := by
    rw [hgen]
    apply strExt
    simp [String.data_append]
  have hsplit := parse_name_ext_split r.title.data r.ext hTne hTsl hTdot hext
  have hscan1 := scan1_none_title r.title.data hTlast hTse
  have hscan2 := scan2_none_title r.title.data hTlast hTx
  have hscanM := scanMovie_none_title r.title.data hTlast hTy
  refine ⟨⟨r.title.data⟩, ?_⟩
  rw [hgen2]
  simp only [parseFilename, hsplit.1, hsplit.2, hscan1, hscan2, hscanM]
  have hfix2 : titleCase (cleanTitle ⟨r.title.data⟩) = r.title := hfix
  rw [hfix2, if_pos (show 0 < r.title.length from List.length_pos.mpr hTne)]

end Mnamer

namespace Mnamer

/-- C7: generate after parse is a fixed point on normalized names: for every
well-formed record `r` already in normalized form (`isNormalizedRecord`),
`parseFilename (generateFilename r)` succeeds with a record `r'` such that
`generateFilename r' = generateFilename r`; in particular, re-parsing a
generated TV name of the form `"Title - SxxEyy.ext"` yields the same title,
season and episode as the original record. -/
theorem generate_parse_generate_fixed (r : ParsedMedia)
    (h : isNormalizedRecord r = true) :
    ∃ r', parseFilename (generateFilename r) = some r' ∧
      generateFilename r' = generateFilename r ∧
      (r.type = .tv →
        r'.title = r.title ∧ r'.season = r.season ∧ r'.episode = r.episode) := by
  unfold isNormalizedRecord at h
  simp only [Bool.and_eq_true] at h
  obtain ⟨⟨ht, hext⟩, hrest⟩ := h
  cases hty : r.type with
  | tv =>
    rw [hty] at hrest
    simp only [Bool.and_eq_true] at hrest
    obtain ⟨hs, he⟩ := hrest
    cases hsea : r.season with
    | none =>
      rw [hsea] at hs
      exact Bool.noConfusion hs
    | some n =>
      rw [hsea] at hs
      simp only [decide_eq_true_eq] at hs
      cases hepi : r.episode with
      | none =>
        rw [hepi] at he
        exact Bool.noConfusion he
      | some m =>
        rw [hepi] at he
        simp only [decide_eq_true_eq] at he
        obtain ⟨nm, hp⟩ := roundtrip_tv_case r n m ht hext hty hsea hs hepi he
        refine ⟨_, hp, ?_, ?_⟩
        · have hgr : generateFilename r =
              r.title ++ " - S" ++ pad2 (some n) ++ "E" ++ pad2 (some m) ++ r.ext := by
            unfold generateFilename
            rw [hty, hsea, hepi]
          rw [hgr]
          rfl
        · intro _
          exact ⟨rfl, rfl, rfl⟩
  | movie =>
    rw [hty] at hrest
    simp only [Bool.and_eq_true, decide_eq_true_eq] at hrest
    obtain ⟨⟨hs, he⟩, hy⟩ := hrest
    cases hyr : r.year with
    | none =>
      obtain ⟨nm, hp⟩ := roundtrip_movie_noyear_case r ht hext hty hyr
      refine ⟨_, hp, ?_, ?_⟩
      · have hgr : generateFilename r = r.title ++ r.ext := by
          unfold generateFilename
          rw [hty, hyr]
        rw [hgr]
        rfl
      · intro htv
        exact MediaType.noConfusion htv
    | some y =>
      rw [hyr] at hy
      simp only [Bool.and_eq_true, decide_eq_true_eq] at hy
      obtain ⟨hy1, hy2⟩ := hy
      obtain ⟨nm, hp⟩ := roundtrip_movie_year_case r y ht hext hty hyr hy1 hy2
      refine ⟨_, hp, ?_, ?_⟩
      · have hgr : generateFilename r =
            r.title ++ " (" ++ toString y ++ ")" ++ r.ext := by
          unfold generateFilename
          rw [hty, hyr]
        rw [hgr]
        rfl
      · intro htv
        exact MediaType.noConfusion htv

/-- A concrete normalized TV record. -/
def normTvRecord : ParsedMedia :=
  { type := .tv, title := "Name", season := some 1, episode := some 2,
    year := none, ext := ".mkv", originalName := "Name" }

/-- Witness for C7 at the record `Name, S01, E02, .mkv`. -/
theorem generate_parse_generate_fixed_witness :
    isNormalizedRecord normTvRecord = true ∧
    (∃ r', parseFilename (generateFilename normTvRecord) = some r' ∧
      generateFilename r' = generateFilename normTvRecord ∧
      (normTvRecord.type = .tv →
        r'.title = normTvRecord.title ∧ r'.season = normTvRecord.season ∧
        r'.episode = normTvRecord.episode)) :=
  ⟨by decide, generate_parse_generate_fixed normTvRecord (by decide)⟩

end Mnamer
